import Mathlib

/-!
Shallow embedding of the NYC Motor Vehicle Collisions data-wrangling pipeline
(`nyc_collisions_wrangling.py`): the seven-stage pandas workflow over one
tabular dataset.  Tables are modelled positionally: a schema (ordered list of
column names) together with rows that are lists of cells, where a cell is
null (pandas NaN/None/NaT/NA), a string, a rational number (the numeric
value of a float64 cell), a nullable integer (Int64), a date, or a
time-of-day.  Column access is by index of the column name in the schema,
mirroring pandas label-based access on a fixed column order; dtype tags are
not tracked separately — each dtype-dependent operation is modelled by its
extensional effect on cell values (e.g. `.str.strip()` strips string cells
and leaves nulls unchanged).

Modelling notes, each faithful to the pandas semantics the script relies on:
- `pd.to_datetime(..., errors="coerce")` on the crash-date column is modelled
  for `MM/DD/YYYY` strings (the dataset's format); any other value coerces to
  null, as `errors="coerce"` never raises.
- `pd.to_numeric(..., errors="coerce")` parses optionally signed decimal
  numerals; anything else coerces to null.
- `.astype("Int64")` on a float column raises unless every non-null value is
  integral; this is modelled as an `Except` error.
- `Series.sort_values(ascending=False)` is modelled as the reverse of a
  stable ascending sort, matching pandas' `nargsort` (stable ascending order
  for the small group counts involved, then index reversal).
- `groupby(...).size()` produces counts indexed by the sorted distinct
  non-null keys.
-/

set_option autoImplicit false

namespace Collisions

/-! ### Character-level text primitives (Python `str.strip` / `str.title`) -/

/-- Whitespace test used by `str.strip` (the whitespace actually occurring in
the dataset: space, tab, newline, carriage return). -/
def wsB (c : Char) : Bool :=
  c == ' ' || c == '\t' || c == '\n' || c == '\r'

/-- The 26 lowercase/uppercase ASCII letter pairs. -/
def upPairs : List (Char × Char) :=
  [('a','A'), ('b','B'), ('c','C'), ('d','D'), ('e','E'), ('f','F'),
   ('g','G'), ('h','H'), ('i','I'), ('j','J'), ('k','K'), ('l','L'),
   ('m','M'), ('n','N'), ('o','O'), ('p','P'), ('q','Q'), ('r','R'),
   ('s','S'), ('t','T'), ('u','U'), ('v','V'), ('w','W'), ('x','X'),
   ('y','Y'), ('z','Z')]

/-- The uppercase/lowercase pairs, for lowercasing. -/
def downPairs : List (Char × Char) := upPairs.map (fun p => (p.2, p.1))

/-- First-match association lookup with decidable equality on keys. -/
def lookupC (c : Char) : List (Char × Char) → Option Char
  | [] => none
  | p :: ps => if p.1 = c then some p.2 else lookupC c ps

/-- ASCII uppercase of a character (identity off `a`-`z`). -/
def charUp (c : Char) : Char :=
  match lookupC c upPairs with
  | some u => u
  | none => c

/-- ASCII lowercase of a character (identity off `A`-`Z`). -/
def charDown (c : Char) : Char :=
  match lookupC c downPairs with
  | some d => d
  | none => c

/-- Alphabetic test (cased character), as used by `str.title`'s word-boundary
state. -/
def isAlphaB (c : Char) : Bool :=
  (lookupC c upPairs).isSome || (lookupC c downPairs).isSome

/-- One character of `str.title`: uppercase an alphabetic character after a
non-alphabetic position, lowercase an alphabetic character after an
alphabetic one, pass anything else through. -/
def tStep (p : Bool) (c : Char) : Char :=
  if isAlphaB c then (if p then charDown c else charUp c) else c

/-- `str.title` over a character list; the Boolean carries whether the
previous (output) character was alphabetic. -/
def titleAux : Bool → List Char → List Char
  | _, [] => []
  | p, c :: cs =>
    let c' := tStep p c
    c' :: titleAux (isAlphaB c') cs

/-- Python `str.title` on a string. -/
def titleS (s : String) : String := ⟨titleAux false s.data⟩

/-- Python `str.strip` on a character list: drop leading and trailing
whitespace. -/
def stripL (l : List Char) : List Char :=
  (((l.dropWhile wsB).reverse.dropWhile wsB).reverse)

/-- Python `str.strip` on a string. -/
def stripS (s : String) : String := ⟨stripL s.data⟩

/-! ### Cells and tables -/

/-- One cell of the table.  `null` stands for all of pandas' missing-value
markers (NaN, None, NaT, NA); `num` is a float64 value (modelled exactly as a
rational); `int` is a nullable-Int64 value; `date`/`time` are parsed
temporal values. -/
inductive Cell where
  | null : Cell
  | str (s : String) : Cell
  | num (q : ℚ) : Cell
  | int (n : ℤ) : Cell
  | date (y m d : ℕ) : Cell
  | time (h m : ℕ) : Cell
deriving DecidableEq, Repr

/-- A table: ordered column names plus rows of cells, positionally aligned
with the column list. -/
structure Table where
  cols : List String
  rows : List (List Cell)
deriving DecidableEq, Repr

/-- Index of a column name in a schema (length of the schema if absent; all
uses are guarded by membership, mirroring the script's
`ensure_columns_exist` checks). -/
def colIdx (c : String) : List String → ℕ
  | [] => 0
  | k :: ks => if k = c then 0 else colIdx c ks + 1

/-- Read the cell at an index of a row (null when out of range). -/
def getAt (r : List Cell) (i : ℕ) : Cell := r.getD i Cell.null

/-- Write the cell at an index of a row, padding with nulls if the row is
shorter (pandas column assignment aligns every row with the schema). -/
def setAt (r : List Cell) (i : ℕ) (v : Cell) : List Cell :=
  (r ++ List.replicate (i + 1 - r.length) Cell.null).set i v

/-- The cell of row `r` in column `c` of a table with schema `cols`. -/
def cellOf (cols : List String) (r : List Cell) (c : String) : Cell :=
  getAt r (colIdx c cols)

/-- The column `c` of a table, as the list of its cells down the rows. -/
def colCells (t : Table) (c : String) : List Cell :=
  t.rows.map (fun r => cellOf t.cols r c)

/-- Replace column `c` cell-wise by `f` (pandas `df[c] = df[c].map(f)`-style
column transform; schema unchanged). -/
def mapCol (c : String) (f : Cell → Cell) (t : Table) : Table :=
  { cols := t.cols
    rows := t.rows.map (fun r => setAt r (colIdx c t.cols) (f (getAt r (colIdx c t.cols)))) }

/-- `Python`: `[c for c in cols if c in df.columns]` (`ensure_columns_exist`). -/
def ensure_columns_exist (t : Table) (cs : List String) : List String :=
  cs.filter (fun c => c ∈ t.cols)

/-- First-match association lookup (the mapping read off a count series). -/
def assq {α β : Type} [DecidableEq α] : List (α × β) → α → Option β
  | [], _ => none
  | p :: ps, a => if p.1 = a then some p.2 else assq ps a

/-! ### Column-role configuration (module-level constants of the script) -/

def INJURY_COLS : List String :=
  ["NUMBER OF PERSONS INJURED", "NUMBER OF PERSONS KILLED",
   "NUMBER OF PEDESTRIANS INJURED", "NUMBER OF PEDESTRIANS KILLED",
   "NUMBER OF CYCLIST INJURED", "NUMBER OF CYCLIST KILLED",
   "NUMBER OF MOTORIST INJURED", "NUMBER OF MOTORIST KILLED"]

def TEXT_COLS : List String :=
  ["BOROUGH",
   "CONTRIBUTING FACTOR VEHICLE 1", "CONTRIBUTING FACTOR VEHICLE 2",
   "CONTRIBUTING FACTOR VEHICLE 3", "CONTRIBUTING FACTOR VEHICLE 4",
   "CONTRIBUTING FACTOR VEHICLE 5",
   "ON STREET NAME", "CROSS STREET NAME", "OFF STREET NAME"]

def FACTOR_COLS : List String :=
  ["CONTRIBUTING FACTOR VEHICLE 1", "CONTRIBUTING FACTOR VEHICLE 2",
   "CONTRIBUTING FACTOR VEHICLE 3", "CONTRIBUTING FACTOR VEHICLE 4",
   "CONTRIBUTING FACTOR VEHICLE 5"]

def DATE_COLS : List String := ["CRASH_DATE"]
def TIME_COLS : List String := ["CRASH_TIME"]
def LOCATION_COLS : List String := ["LATITUDE", "LONGITUDE"]
def UNIQUE_KEY_COL : String := "UNIQUE KEY"

/-! ### Stage 2: `handle_missing_values` -/

/-- `fillna(v)` on one cell. -/
def fillCell (v : Cell) (x : Cell) : Cell :=
  match x with
  | Cell.null => v
  | x => x

/-- `handle_missing_values`: drop rows with a null in any present geolocation
column, fill null cells of present injury columns with `0`, fill null cells
of the first contributing-factor column with `"Unknown"`. -/
def handle_missing_values (t : Table) : Table :=
  let loc_cols := ensure_columns_exist t LOCATION_COLS
  let t1 : Table :=
    if loc_cols ≠ [] then
      { cols := t.cols
        rows := t.rows.filter (fun r =>
          loc_cols.all (fun c => cellOf t.cols r c ≠ Cell.null)) }
    else t
  let injuries := ensure_columns_exist t1 INJURY_COLS
  let t2 := injuries.foldl (fun s c => mapCol c (fillCell (Cell.num 0)) s) t1
  if "CONTRIBUTING FACTOR VEHICLE 1" ∈ t2.cols then
    mapCol "CONTRIBUTING FACTOR VEHICLE 1" (fillCell (Cell.str "Unknown")) t2
  else t2

/-! ### Stage 3: `correct_types` -/

/-- Digits of a character list parsed as a natural number (none on empty
input or a non-digit). -/
def parseNatL : List Char → Option ℕ
  | [] => none
  | l => l.foldl (fun acc c =>
      match acc with
      | none => none
      | some n => if '0' ≤ c ∧ c ≤ '9' then some (n * 10 + (c.toNat - 48)) else none)
      (some 0)

/-- Split a character list on a separator character. -/
def splitOnC (sep : Char) : List Char → List (List Char)
  | [] => [[]]
  | c :: cs =>
    let r := splitOnC sep cs
    if c = sep then [] :: r
    else match r with
      | [] => [[c]]
      | g :: gs => (c :: g) :: gs

/-- `pd.to_datetime(..., errors="coerce")` for the dataset's `MM/DD/YYYY`
format; anything else coerces to null. -/
def parseDateCell (x : Cell) : Cell :=
  match x with
  | Cell.date y m d => Cell.date y m d
  | Cell.str s =>
    match splitOnC '/' s.data with
    | [ms, ds, ys] =>
      match parseNatL ms, parseNatL ds, parseNatL ys with
      | some m, some d, some y =>
        if 1 ≤ m ∧ m ≤ 12 ∧ 1 ≤ d ∧ d ≤ 31 then Cell.date y m d else Cell.null
      | _, _, _ => Cell.null
    | _ => Cell.null
  | _ => Cell.null

/-- `pd.to_datetime(..., format="%H:%M", errors="coerce").dt.time`: parse
`HH:MM`, anything else coerces to null. -/
def parseTimeCell (x : Cell) : Cell :=
  match x with
  | Cell.time h m => Cell.time h m
  | Cell.str s =>
    match splitOnC ':' s.data with
    | [hs, ms] =>
      match parseNatL hs, parseNatL ms with
      | some h, some m => if h ≤ 23 ∧ m ≤ 59 then Cell.time h m else Cell.null
      | _, _ => Cell.null
    | _ => Cell.null
  | _ => Cell.null

/-- Parse an optionally signed decimal numeral (`"3"`, `"-2"`, `"2.5"`) to a
rational. -/
def parseRatL (l : List Char) : Option ℚ :=
  let (neg, body) :=
    match l with
    | '-' :: rest => (true, rest)
    | l => (false, l)
  let q : Option ℚ :=
    match splitOnC '.' body with
    | [ip] => (parseNatL ip).map (fun n => (n : ℚ))
    | [ip, fp] =>
      match parseNatL ip, parseNatL fp with
      | some n, some f => some ((n : ℚ) + (f : ℚ) / ((10 : ℚ) ^ fp.length))
      | _, _ => none
    | _ => none
  q.map (fun v => if neg then -v else v)

/-- `pd.to_numeric(..., errors="coerce")` on one cell. -/
def toNumCell (x : Cell) : Cell :=
  match x with
  | Cell.num q => Cell.num q
  | Cell.int n => Cell.num (n : ℚ)
  | Cell.str s =>
    match parseRatL s.data with
    | some q => Cell.num q
    | none => Cell.null
  | _ => Cell.null

/-- Whether a cell is a numeric value with a fractional component (the values
`.astype("Int64")` refuses to cast). -/
def isFracCell (x : Cell) : Bool :=
  match x with
  | Cell.num q => decide (q.den ≠ 1)
  | _ => false

/-- The integral cast performed by `.astype("Int64")` on a coerced cell. -/
def toInt64Cell (x : Cell) : Cell :=
  match toNumCell x with
  | Cell.num q => Cell.int q.num
  | _ => Cell.null

/-- `pd.to_numeric(df[c], errors="coerce").astype("Int64")` for one injury
column: raises (`Except.error`) when some coerced value is fractional,
otherwise casts the column to nullable integers. -/
def coerceInjCol (c : String) (t : Table) : Except String Table :=
  if (t.rows.map (fun r => toNumCell (cellOf t.cols r c))).any isFracCell then
    Except.error ("cannot safely cast non-equivalent float64 to int64: " ++ c)
  else
    Except.ok (mapCol c toInt64Cell t)

/-- Fold of `coerceInjCol` over a column list, stopping at the first error. -/
def coerceInjuries : List String → Table → Except String Table
  | [], t => Except.ok t
  | c :: cs, t =>
    match coerceInjCol c t with
    | Except.ok t' => coerceInjuries cs t'
    | Except.error e => Except.error e

/-- `correct_types`: parse present date columns (coerce-to-null), parse
present time columns (coerce-to-null), cast present injury columns to
nullable Int64 (which raises on fractional values), and tag the borough
column as categorical (a dtype-only change with no effect on cell values). -/
def correct_types (t : Table) : Except String Table :=
  let t1 := (ensure_columns_exist t DATE_COLS).foldl
    (fun s c => mapCol c parseDateCell s) t
  let t2 := (ensure_columns_exist t1 TIME_COLS).foldl
    (fun s c => mapCol c parseTimeCell s) t1
  coerceInjuries (ensure_columns_exist t2 INJURY_COLS) t2

/-! ### Stage 4: `clean_text` -/

/-- `.str.strip()` on one cell: strips string cells, leaves nulls and
non-string cells unchanged. -/
def stripCell (x : Cell) : Cell :=
  match x with
  | Cell.str s => Cell.str (stripS s)
  | x => x

/-- `.str.title()` on one cell. -/
def titleCell (x : Cell) : Cell :=
  match x with
  | Cell.str s => Cell.str (titleS s)
  | x => x

/-- `Series.replace("Unspecified", pd.NA)` on one cell: an exact scalar
match, not a substring or case-insensitive match. -/
def replaceUnspecCell (x : Cell) : Cell :=
  if x = Cell.str "Unspecified" then Cell.null else x

/-- `clean_text`: strip whitespace on every present text column, title-case
the borough, and replace the exact sentinel `"Unspecified"` with null in the
five contributing-factor columns. -/
def clean_text (t : Table) : Table :=
  let t1 := (ensure_columns_exist t TEXT_COLS).foldl
    (fun s c => mapCol c stripCell s) t
  let t2 := if "BOROUGH" ∈ t1.cols then mapCol "BOROUGH" titleCell t1 else t1
  (ensure_columns_exist t2 FACTOR_COLS).foldl
    (fun s c => mapCol c replaceUnspecCell s) t2

/-! ### Grouping and sorting primitives (pandas `groupby(...).size()`,
`sort_values`, `idxmax`) -/

/-- Lexicographic code-point comparison of character lists (Python string
`<`, the order pandas uses for a string group index). -/
def charListLt : List Char → List Char → Bool
  | [], [] => false
  | [], _ :: _ => true
  | _ :: _, [] => false
  | c :: cs, d :: ds =>
    if c.toNat < d.toNat then true
    else if d.toNat < c.toNat then false
    else charListLt cs ds

/-- Python string `<`. -/
def strLtB (a b : String) : Bool := charListLt a.data b.data

/-- Integer `<` as a Boolean comparison. -/
def intLtB (a b : ℤ) : Bool := decide (a < b)

/-- Insert a key into a sorted duplicate-free list (ascending by `ltB`). -/
def insKey {α : Type} [DecidableEq α] (ltB : α → α → Bool) (x : α) :
    List α → List α
  | [] => [x]
  | y :: ys =>
    if ltB x y then x :: y :: ys
    else if x = y then y :: ys
    else y :: insKey ltB x ys

/-- Sorted distinct keys of a list, ascending — the index of a pandas
`groupby(...).size()` result. -/
def sortedKeys {α : Type} [DecidableEq α] (ltB : α → α → Bool) (l : List α) :
    List α :=
  l.foldl (fun acc x => insKey ltB x acc) []

/-- `groupby(keys).size()`: counts per distinct key, indexed by the sorted
distinct keys. -/
def groupSizes {α : Type} [DecidableEq α] (ltB : α → α → Bool)
    (keys : List α) : List (α × ℕ) :=
  (sortedKeys ltB keys).map (fun k => (k, keys.count k))

/-- Stable insertion (by count, ascending) used to model pandas
`sort_values`: an element is placed after every element of equal count. -/
def insCnt {α : Type} (x : α × ℕ) : List (α × ℕ) → List (α × ℕ)
  | [] => [x]
  | y :: ys => if x.2 < y.2 then x :: y :: ys else y :: insCnt x ys

/-- Stable ascending sort by count. -/
def sortCntAsc {α : Type} (l : List (α × ℕ)) : List (α × ℕ) :=
  l.foldl (fun acc x => insCnt x acc) []

/-- `sort_values(ascending=False)`: pandas computes a stable ascending order
and reverses the index order. -/
def sortCntDesc {α : Type} (l : List (α × ℕ)) : List (α × ℕ) :=
  (sortCntAsc l).reverse

/-- The maximum count of a count series. -/
def maxCnt {α : Type} (l : List (α × ℕ)) : ℕ :=
  l.foldr (fun p m => max p.2 m) 0

/-- `Series.idxmax`: the first index (in series order) whose value attains
the maximum. -/
def idxmaxKey {α : Type} (l : List (α × ℕ)) : Option α :=
  (l.find? (fun p => p.2 == maxCnt l)).map Prod.fst

/-! ### Stage 5: `filter_and_group` -/

/-- The borough grouping key of a row: `groupby` excludes null keys, and the
post-normalization borough values are strings. -/
def boroughKey (cols : List String) (r : List Cell) : Option String :=
  match cellOf cols r "BOROUGH" with
  | Cell.str s => some s
  | _ => none

/-- The year grouping key of a row (`YEAR` is null where the crash date was
null). -/
def yearKey (cols : List String) (r : List Cell) : Option ℤ :=
  match cellOf cols r "YEAR" with
  | Cell.int y => some y
  | _ => none

/-- `.dt.year` on one parsed-date cell: the year, or null for NaT. -/
def yearOfCell (x : Cell) : Cell :=
  match x with
  | Cell.date y _ _ => Cell.int y
  | _ => Cell.null

/-- `df[c] = f(df[src])`: derive column `c` cell-wise from column `src`,
appending `c` to the schema when absent. -/
def setColFrom (c src : String) (f : Cell → Cell) (t : Table) : Table :=
  let cols' := if c ∈ t.cols then t.cols else t.cols ++ [c]
  { cols := cols'
    rows := t.rows.map (fun r => setAt r (colIdx c cols') (f (cellOf t.cols r src))) }

/-- The `df["YEAR"] = df["CRASH_DATE"].dt.year` mutation of
`filter_and_group` (performed only when the date column is present). -/
def addYear (t : Table) : Table :=
  if "CRASH_DATE" ∈ t.cols then setColFrom "YEAR" "CRASH_DATE" yearOfCell t else t

/-- `pivot_table(index="YEAR", columns="BOROUGH", values=UNIQUE_KEY_COL,
aggfunc="count")`: rows with a null year or borough key are excluded from the
grouping; a cell holds the count of non-null identifier values in its group,
and is NaN (`none`) for a (year, borough) pair with no rows. -/
def pivotTable (t : Table) : List (ℤ × List (String × Option ℕ)) :=
  let qual := t.rows.filter (fun r =>
    (yearKey t.cols r).isSome && (boroughKey t.cols r).isSome)
  let ys := sortedKeys intLtB (qual.filterMap (yearKey t.cols))
  let bs := sortedKeys strLtB (qual.filterMap (boroughKey t.cols))
  ys.map (fun y =>
    (y, bs.map (fun b =>
      (b,
        if (qual.filter (fun r =>
            yearKey t.cols r == some y
              && boroughKey t.cols r == some b)).isEmpty
        then none
        else some (((qual.filter (fun r =>
            yearKey t.cols r == some y
              && boroughKey t.cols r == some b)).filter (fun r =>
          cellOf t.cols r UNIQUE_KEY_COL ≠ Cell.null)).length)))))

/-- The grouping/pivot artifacts of `filter_and_group`.  The correlation
matrix is a pure function of the present injury columns' values, so the
artifact is modelled by that data (`corrData`); each artifact is `none` when
its prerequisite columns are absent. -/
structure AggOut where
  manhattanCount : Option ℕ
  boroughCounts : Option (List (String × ℕ))
  yearCounts : Option (List (ℤ × ℕ))
  pivot : Option (List (ℤ × List (String × Option ℕ)))
  corrData : Option (List (String × List Cell))
deriving DecidableEq, Repr

/-- `filter_and_group`: the Manhattan filter count, the year-column mutation,
the two group-by counts, the pivot, and the correlation input; returns the
artifacts together with the (mutated) table the later stages receive. -/
def filter_and_group (t : Table) : AggOut × Table :=
  let man :=
    if "BOROUGH" ∈ t.cols then
      some ((t.rows.filter (fun r =>
        cellOf t.cols r "BOROUGH" = Cell.str "Manhattan")).length)
    else none
  let t' := addYear t
  let bc :=
    if "BOROUGH" ∈ t'.cols then
      some (sortCntDesc (groupSizes strLtB (t'.rows.filterMap (boroughKey t'.cols))))
    else none
  let yc :=
    if "YEAR" ∈ t'.cols then
      some (groupSizes intLtB (t'.rows.filterMap (yearKey t'.cols)))
    else none
  let pv :=
    if "YEAR" ∈ t'.cols ∧ "BOROUGH" ∈ t'.cols ∧ UNIQUE_KEY_COL ∈ t'.cols then
      some (pivotTable t')
    else none
  let injuries := ensure_columns_exist t' INJURY_COLS
  let corr :=
    if injuries ≠ [] then some (injuries.map (fun c => (c, colCells t' c)))
    else none
  ({ manhattanCount := man, boroughCounts := bc, yearCounts := yc,
     pivot := pv, corrData := corr }, t')

/-! ### Stage 6: `statistical_summaries` -/

/-- The artifacts of `statistical_summaries`.  The `describe` table and the
mean are pure functions of the present injury columns' values
(`injuriesData`); the top-20 `value_counts(dropna=False)` ranking is a pure
function of the primary factor column (`factorData`); `mostCrashes` is the
`idxmax` borough (inner `none` when the grouping is empty, in which case the
full count file is also skipped). -/
structure StatsOut where
  injuriesData : Option (List (String × List Cell))
  factorData : Option (List Cell)
  mostCrashes : Option (Option String)
  boroughFull : Option (List (String × ℕ))
deriving DecidableEq, Repr

/-- `statistical_summaries`. -/
def statistical_summaries (t : Table) : StatsOut :=
  let injuries := ensure_columns_exist t INJURY_COLS
  { injuriesData :=
      if injuries ≠ [] then some (injuries.map (fun c => (c, colCells t c)))
      else none
    factorData :=
      if "CONTRIBUTING FACTOR VEHICLE 1" ∈ t.cols then
        some (colCells t "CONTRIBUTING FACTOR VEHICLE 1")
      else none
    mostCrashes :=
      if "BOROUGH" ∈ t.cols then
        some (idxmaxKey (groupSizes strLtB (t.rows.filterMap (boroughKey t.cols))))
      else none
    boroughFull :=
      if "BOROUGH" ∈ t.cols then
        if groupSizes strLtB (t.rows.filterMap (boroughKey t.cols)) ≠ [] then
          some (groupSizes strLtB (t.rows.filterMap (boroughKey t.cols)))
        else none
      else none }

/-! ### Stage 7: `export_raw_and_clean` -/

/-- Observable exporter events: a line-delimited JSON write, a successful
columnar (Parquet) write, or the `[WARN] Skipping Parquet (<name>)` message
emitted when the columnar writer raises. -/
inductive ExpEvent where
  | jsonOk (name : String) : ExpEvent
  | parquetOk (name : String) : ExpEvent
  | warnSkip (name : String) : ExpEvent
deriving DecidableEq, Repr

/-- `safe_to_parquet`: attempt the columnar write; on any raised error, catch
it and emit a warning naming the artifact instead of propagating. -/
def safe_to_parquet (writer : String → Except String Unit) (name : String) :
    List ExpEvent :=
  match writer name with
  | Except.ok _ => [ExpEvent.parquetOk name]
  | Except.error _ => [ExpEvent.warnSkip name]

/-- `export_raw_and_clean`: the raw JSON export, the best-effort raw Parquet
export, the clean JSON export, the best-effort clean Parquet export, in
program order. -/
def export_raw_and_clean (writer : String → Except String Unit) :
    List ExpEvent :=
  [ExpEvent.jsonOk "collisions_raw.json"]
    ++ safe_to_parquet writer "collisions_raw.parquet"
    ++ [ExpEvent.jsonOk "collisions_clean.json"]
    ++ safe_to_parquet writer "collisions_clean.parquet"

/-! ### The pipeline driver (`main`, after loading) -/

/-- The observable outcome of one run: the process exit code (0 — `main`
returns `None` on completion), the exporter events, both stage-6/5 artifact
sets, and the table the exporter received as its cleaned snapshot. -/
structure RunOut where
  exitCode : ℕ
  events : List ExpEvent
  agg : AggOut
  stats : StatsOut
  exported : Table
deriving DecidableEq, Repr

/-- Stages 2-7 of `main` on a loaded table: missing values, types (which can
raise), text cleaning, grouping, statistics, export. -/
def runPipeline (writer : String → Except String Unit) (t : Table) :
    Except String RunOut :=
  match correct_types (handle_missing_values t) with
  | Except.error e => Except.error e
  | Except.ok t2 =>
    Except.ok
      { exitCode := 0
        events := export_raw_and_clean writer
        agg := (filter_and_group (clean_text t2)).1
        stats := statistical_summaries ((filter_and_group (clean_text t2)).2)
        exported := (filter_and_group (clean_text t2)).2 }

/-! ### Row-operation calculus

Each cleaning stage is a sequence of single-column cell transforms; a
`(index, function)` pair is one `df[c] = f(df[c])` column assignment viewed
at row level.  `applyOps` is the row-level effect of a stage, `compApp` the
accumulated per-index transform, `lenOps` the resulting row length. -/

/-- One column assignment at row level. -/
def stepOp (r : List Cell) (p : ℕ × (Cell → Cell)) : List Cell :=
  setAt r p.1 (p.2 (getAt r p.1))

/-- A sequence of column assignments at row level. -/
def applyOps (ops : List (ℕ × (Cell → Cell))) (r : List Cell) : List Cell :=
  ops.foldl stepOp r

/-- Row length after a sequence of column assignments. -/
def lenOps (ops : List (ℕ × (Cell → Cell))) (n : ℕ) : ℕ :=
  ops.foldl (fun L p => max L (p.1 + 1)) n

/-- The accumulated transform a sequence of column assignments applies at
one index. -/
def compApp (ops : List (ℕ × (Cell → Cell))) (n : ℕ) (x : Cell) : Cell :=
  ops.foldl (fun y p => if p.1 = n then p.2 y else y) x

/-- The column assignments of `handle_missing_values` after the row drop:
zero-fill each present injury column, then fill the first contributing
factor with "Unknown" when present. -/
def hmvOps (cols : List String) : List (ℕ × (Cell → Cell)) :=
  (INJURY_COLS.filter (fun c => c ∈ cols)).map
      (fun c => (colIdx c cols, fillCell (Cell.num 0)))
    ++ (if "CONTRIBUTING FACTOR VEHICLE 1" ∈ cols then
        [(colIdx "CONTRIBUTING FACTOR VEHICLE 1" cols,
          fillCell (Cell.str "Unknown"))]
      else [])

/-- The row-drop test of `handle_missing_values`: keep a row iff every
present geolocation cell is non-null. -/
def keepRow (cols : List String) (r : List Cell) : Bool :=
  (LOCATION_COLS.filter (fun c => c ∈ cols)).all
    (fun c => cellOf cols r c ≠ Cell.null)

/-- The column assignments of `clean_text`: strip each present text column,
title-case the borough when present, replace the sentinel in each present
contributing-factor column. -/
def ctOps (cols : List String) : List (ℕ × (Cell → Cell)) :=
  (TEXT_COLS.filter (fun c => c ∈ cols)).map
      (fun c => (colIdx c cols, stripCell))
    ++ (if "BOROUGH" ∈ cols then [(colIdx "BOROUGH" cols, titleCell)] else [])
    ++ (FACTOR_COLS.filter (fun c => c ∈ cols)).map
      (fun c => (colIdx c cols, replaceUnspecCell))

/-- The column assignments of `correct_types` (defined only when every
present injury column casts without error): parse dates, parse times, cast
injuries. -/
def ctypesOps (cols : List String) : List (ℕ × (Cell → Cell)) :=
  (DATE_COLS.filter (fun c => c ∈ cols)).map
      (fun c => (colIdx c cols, parseDateCell))
    ++ (TIME_COLS.filter (fun c => c ∈ cols)).map
      (fun c => (colIdx c cols, parseTimeCell))
    ++ (INJURY_COLS.filter (fun c => c ∈ cols)).map
      (fun c => (colIdx c cols, toInt64Cell))

/-- Cell (y, b) of the pivot artifact (outer `none` when year y is not an
index row; inner reading per `pivotTable`). -/
def pivotLookup (t : Table) (y : ℤ) (b : String) : Option (Option ℕ) :=
  (assq (pivotTable t) y).bind (fun row => assq row b)

/-- Modelled from the spec's pivot description, for comparison with the
code's artifact: "cell (y, b) = count of distinct identifier values with
that year and borough". -/
def specPivotDistinct (t : Table) (y : ℤ) (b : String) : ℕ :=
  ((t.rows.filter (fun r =>
      yearKey t.cols r == some y && boroughKey t.cols r == some b)).filterMap
    (fun r =>
      match cellOf t.cols r UNIQUE_KEY_COL with
      | Cell.null => none
      | v => some v)).dedup.length

/-- The number of rows of a table with year y, borough b and a non-null
identifier cell (what the code's pivot cell actually counts). -/
def pivotRowCount (t : Table) (y : ℤ) (b : String) : ℕ :=
  (t.rows.filter (fun r =>
    yearKey t.cols r == some y && boroughKey t.cols r == some b
      && cellOf t.cols r UNIQUE_KEY_COL ≠ Cell.null)).length

/-! ### Shared concrete data -/

/-- The schema of the spec's three-row scenario table. -/
def scCols : List String :=
  ["UNIQUE KEY", "BOROUGH", "LATITUDE", "LONGITUDE",
   "NUMBER OF PERSONS INJURED", "CONTRIBUTING FACTOR VEHICLE 1", "CRASH_DATE"]

/-- Scenario row 1: key=1, borough=" brooklyn ", lat=40.6, lon=-73.9,
persons-injured=null, factor1="Unspecified", date="01/02/2021". -/
def scRow1 : List Cell :=
  [Cell.int 1, Cell.str " brooklyn ", Cell.num (mkRat 203 5), Cell.num (mkRat (-739) 10),
   Cell.null, Cell.str "Unspecified", Cell.str "01/02/2021"]

/-- Scenario row 2: key=2, borough/lat/lon=null, persons-injured=2,
factor1="Driver Inattention", date="01/03/2021". -/
def scRow2 : List Cell :=
  [Cell.int 2, Cell.null, Cell.null, Cell.null,
   Cell.num 2, Cell.str "Driver Inattention", Cell.str "01/03/2021"]

/-- Scenario row 3: key=3, borough="QUEENS", lat=40.7, lon=-73.8,
persons-injured=0, factor1=null, date="01/02/2021". -/
def scRow3 : List Cell :=
  [Cell.int 3, Cell.str "QUEENS", Cell.num (mkRat 407 10), Cell.num (mkRat (-369) 5),
   Cell.num 0, Cell.null, Cell.str "01/02/2021"]

/-- The spec's three-row scenario table. -/
def scT : Table := { cols := scCols, rows := [scRow1, scRow2, scRow3] }

/-- A cleaned table whose identifier column holds a duplicated value: the
source dataset documents the key as unique but the pipeline never enforces
it (§3 of the spec), so this is a legal Aggregator input. -/
def dupKeyT : Table :=
  { cols := ["UNIQUE KEY", "BOROUGH", "YEAR"]
    rows := [[Cell.int 7, Cell.str "Queens", Cell.int 2021],
             [Cell.int 7, Cell.str "Queens", Cell.int 2021]] }

/-- A one-row cleaned table containing only the crash-date column. -/
def dateOnlyT : Table :=
  { cols := ["CRASH_DATE"], rows := [[Cell.date 2021 1 2]] }

/-- A one-row table whose injury cell holds the fractional float 2.5 (as a
CSV loader produces for the text `2.5`). -/
def fracInjT : Table :=
  { cols := ["NUMBER OF PERSONS INJURED"], rows := [[Cell.num (mkRat 5 2)]] }

/-- A cleaned table with two boroughs tied at one row each. -/
def tieT : Table :=
  { cols := ["BOROUGH"], rows := [[Cell.str "Brooklyn"], [Cell.str "Queens"]] }

/-- A cleaned table where "Brooklyn" uniquely attains the maximum borough
count. -/
def uniqueMaxT : Table :=
  { cols := ["BOROUGH"]
    rows := [[Cell.str "Brooklyn"], [Cell.str "Brooklyn"], [Cell.str "Queens"]] }

/-- A two-row table over the full geolocation + injury schema (for
exercising the missing-value invariants). -/
def geoInjT : Table :=
  { cols := ["LATITUDE", "LONGITUDE"] ++ INJURY_COLS
    rows :=
      [[Cell.num 1, Cell.num 2, Cell.null, Cell.num 1, Cell.null, Cell.num 0,
        Cell.null, Cell.num 3, Cell.null, Cell.num 0],
       [Cell.num 4, Cell.null, Cell.num 1, Cell.num 1, Cell.num 1, Cell.num 1,
        Cell.num 1, Cell.num 1, Cell.num 1, Cell.num 1]] }

end Collisions

deriving instance DecidableEq for Except

namespace Collisions

/-! ### Claims -/

/-- The observations of a run that the scenario claim checks: surviving row
count, the key / borough / factor1 / year columns of the exported table, the
year counts, and the borough-count mapping restricted to the two expected
boroughs (with the total number of grouped boroughs). -/
structure ScenarioView where
  rowCount : ℕ
  keyCol : List Cell
  boroughCol : List Cell
  factor1Col : List Cell
  yearCol : List Cell
  yearCountList : Option (List (ℤ × ℕ))
  brooklynCount : Option (Option ℕ)
  queensCount : Option (Option ℕ)
  boroughGroups : Option ℕ
deriving DecidableEq, Repr

/-- Read the scenario observations off a completed run. -/
def scenarioView (r : Except String RunOut) : Option ScenarioView :=
  r.toOption.map (fun out =>
    { rowCount := out.exported.rows.length
      keyCol := colCells out.exported "UNIQUE KEY"
      boroughCol := colCells out.exported "BOROUGH"
      factor1Col := colCells out.exported "CONTRIBUTING FACTOR VEHICLE 1"
      yearCol := colCells out.exported "YEAR"
      yearCountList := out.agg.yearCounts
      brooklynCount := out.agg.boroughCounts.map (fun l => assq l "Brooklyn")
      queensCount := out.agg.boroughCounts.map (fun l => assq l "Queens")
      boroughGroups := out.agg.boroughCounts.map List.length })

/-- The rows surviving `handle_missing_values`' drop step. -/
def keptRows (t : Table) : List (List Cell) :=
  if LOCATION_COLS.filter (fun c => c ∈ t.cols) ≠ [] then
    t.rows.filter (keepRow t.cols)
  else t.rows

/-- The composite transform the pipeline applies to a first
contributing-factor cell of a surviving row: null-fill with "Unknown"
(MissingValueHandler), then strip and sentinel-replace (TextNormalizer). -/
def pipeFactor1 (cols : List String) (r : List Cell) : Cell :=
  replaceUnspecCell (stripCell (fillCell (Cell.str "Unknown")
    (cellOf cols r "CONTRIBUTING FACTOR VEHICLE 1")))

/-- A two-row table holding only the first contributing-factor column, with
a null cell and an "Unspecified" cell. -/
def unkT : Table :=
  { cols := ["CONTRIBUTING FACTOR VEHICLE 1"]
    rows := [[Cell.null], [Cell.str "Unspecified"]] }

/-- A character list with no leading and no trailing whitespace. -/
def okEnds (m : List Char) : Prop :=
  (∀ c, m.head? = some c → wsB c = false) ∧
  (∀ c, m.getLast? = some c → wsB c = false)

/-! ### Core lemmas: the row-operation calculus -/

theorem length_setAt (r : List Cell) (i : ℕ) (v : Cell) :
    (setAt r i v).length = max r.length (i + 1) := by
  simp only [setAt, List.length_set, List.length_append, List.length_replicate]
  omega

theorem getAt_setAt (r : List Cell) (i : ℕ) (v : Cell) (n : ℕ) :
    getAt (setAt r i v) n = if i = n then v else getAt r n := by
  by_cases h : i = n
  · subst h
    simp only [if_pos rfl, setAt, getAt]
    rw [List.getD_eq_getElem?_getD, List.getElem?_set_eq_of_lt]
    · rfl
    · simp only [List.length_append, List.length_replicate]
      omega
  · rw [if_neg h]
    simp only [setAt, getAt]
    rw [List.getD_eq_getElem?_getD, List.getElem?_set_ne h,
      List.getD_eq_getElem?_getD]
    by_cases hn : n < r.length
    · rw [List.getElem?_append_left hn]
    · have hn' : r.length ≤ n := Nat.le_of_not_lt hn
      rw [List.getElem?_append_right hn']
      rw [List.getElem?_eq_none_iff.mpr hn']
      by_cases hk : n - r.length < i + 1 - r.length
      · rw [List.getElem?_replicate_of_lt hk]
        rfl
      · rw [List.getElem?_eq_none_iff.mpr]
        simp only [List.length_replicate]
        omega

theorem getAt_stepOp (r : List Cell) (p : ℕ × (Cell → Cell)) (n : ℕ) :
    getAt (stepOp r p) n = if p.1 = n then p.2 (getAt r n) else getAt r n := by
  by_cases h : p.1 = n
  · rw [stepOp, getAt_setAt, if_pos h, if_pos h, h]
  · rw [stepOp, getAt_setAt, if_neg h, if_neg h]

theorem getAt_applyOps (ops : List (ℕ × (Cell → Cell))) (r : List Cell)
    (n : ℕ) : getAt (applyOps ops r) n = compApp ops n (getAt r n) := by
  induction ops generalizing r with
  | nil => rfl
  | cons p ops ih =>
    show getAt (applyOps ops (stepOp r p)) n = _
    rw [ih, getAt_stepOp]
    rfl

theorem length_applyOps (ops : List (ℕ × (Cell → Cell))) (r : List Cell) :
    (applyOps ops r).length = lenOps ops r.length := by
  induction ops generalizing r with
  | nil => rfl
  | cons p ops ih =>
    show (applyOps ops (stepOp r p)).length = _
    rw [ih, stepOp, length_setAt]
    rfl

theorem le_lenOps (ops : List (ℕ × (Cell → Cell))) (b : ℕ) :
    b ≤ lenOps ops b := by
  induction ops generalizing b with
  | nil => exact Nat.le_refl b
  | cons p ops ih =>
    exact Nat.le_trans (Nat.le_max_left b (p.1 + 1)) (ih (max b (p.1 + 1)))

theorem mem_le_lenOps (ops : List (ℕ × (Cell → Cell))) (b : ℕ)
    (p : ℕ × (Cell → Cell)) (hp : p ∈ ops) : p.1 + 1 ≤ lenOps ops b := by
  induction ops generalizing b with
  | nil => cases hp
  | cons q ops ih =>
    rcases List.mem_cons.mp hp with h | h
    · subst h
      exact Nat.le_trans (Nat.le_max_right b (p.1 + 1)) (le_lenOps ops _)
    · exact ih (max b (q.1 + 1)) h

theorem lenOps_lenOps (ops : List (ℕ × (Cell → Cell))) (b : ℕ) :
    lenOps ops (lenOps ops b) = lenOps ops b := by
  have key : ∀ (os : List (ℕ × (Cell → Cell))) (x : ℕ),
      (∀ p ∈ os, p.1 + 1 ≤ x) → lenOps os x = x := by
    intro os
    induction os with
    | nil => intro x _; rfl
    | cons p os ih =>
      intro x hx
      show lenOps os (max x (p.1 + 1)) = x
      have h1 : max x (p.1 + 1) = x := by
        have := hx p (List.mem_cons_self p os)
        omega
      rw [h1]
      exact ih x (fun q hq => hx q (List.mem_cons_of_mem p hq))
  exact key ops _ (fun p hp => mem_le_lenOps ops b p hp)

theorem eq_of_getAt (l m : List Cell) (hlen : l.length = m.length)
    (h : ∀ n, getAt l n = getAt m n) : l = m := by
  apply List.ext_getElem?_iff.mpr
  intro n
  by_cases hn : n < l.length
  · have hm : n < m.length := hlen ▸ hn
    rw [List.getElem?_eq_getElem hn, List.getElem?_eq_getElem hm]
    have := h n
    simp only [getAt, List.getD_eq_getElem?_getD, List.getElem?_eq_getElem hn,
      List.getElem?_eq_getElem hm, Option.getD_some] at this
    rw [this]
  · have hm : ¬ n < m.length := hlen ▸ hn
    rw [List.getElem?_eq_none_iff.mpr (Nat.le_of_not_lt hn),
      List.getElem?_eq_none_iff.mpr (Nat.le_of_not_lt hm)]

theorem applyOps_idem (ops : List (ℕ × (Cell → Cell)))
    (h : ∀ n x, compApp ops n (compApp ops n x) = compApp ops n x)
    (r : List Cell) : applyOps ops (applyOps ops r) = applyOps ops r := by
  apply eq_of_getAt
  · simp only [length_applyOps, lenOps_lenOps]
  · intro n
    simp only [getAt_applyOps, h]

theorem compApp_append (a b : List (ℕ × (Cell → Cell))) (n : ℕ) (x : Cell) :
    compApp (a ++ b) n x = compApp b n (compApp a n x) := by
  simp only [compApp, List.foldl_append]

theorem compApp_untouched (ops : List (ℕ × (Cell → Cell))) (n : ℕ)
    (h : ∀ p ∈ ops, p.1 ≠ n) (x : Cell) : compApp ops n x = x := by
  induction ops generalizing x with
  | nil => rfl
  | cons p ops ih =>
    show compApp ops n (if p.1 = n then p.2 x else x) = x
    rw [if_neg (h p (List.mem_cons_self p ops))]
    exact ih (fun q hq => h q (List.mem_cons_of_mem p hq)) x

theorem compApp_nodup (idxs : List ℕ) (f : Cell → Cell) (n : ℕ)
    (hnd : idxs.Nodup) (x : Cell) :
    compApp (idxs.map (fun i => (i, f))) n x = if n ∈ idxs then f x else x := by
  induction idxs generalizing x with
  | nil => rfl
  | cons i idxs ih =>
    have hnd' : idxs.Nodup := (List.nodup_cons.mp hnd).2
    have hni : i ∉ idxs := (List.nodup_cons.mp hnd).1
    show compApp (idxs.map (fun i => (i, f))) n (if i = n then f x else x) = _
    by_cases h : i = n
    · subst h
      rw [if_pos rfl, if_pos (List.mem_cons_self i idxs)]
      have : ∀ p ∈ idxs.map (fun j => (j, f)), p.1 ≠ i := by
        intro p hp
        rcases List.mem_map.mp hp with ⟨j, hj, rfl⟩
        intro hji
        exact hni (hji ▸ hj)
      rw [compApp_untouched _ _ this]
    · rw [if_neg h, ih hnd' x]
      by_cases hn : n ∈ idxs
      · rw [if_pos hn, if_pos (List.mem_cons_of_mem i hn)]
      · rw [if_neg hn, if_neg (by
          intro hmem
          rcases List.mem_cons.mp hmem with h' | h'
          · exact h h'.symm
          · exact hn h')]

theorem applyOps_append (a b : List (ℕ × (Cell → Cell))) (r : List Cell) :
    applyOps (a ++ b) r = applyOps b (applyOps a r) := by
  simp only [applyOps, List.foldl_append]

theorem applyOps_nil (r : List Cell) : applyOps [] r = r := rfl

theorem applyOps_single (p : ℕ × (Cell → Cell)) (r : List Cell) :
    applyOps [p] r = stepOp r p := rfl

theorem colIdx_inj (cols : List String) (c c' : String) (hc : c ∈ cols)
    (h : colIdx c cols = colIdx c' cols) : c = c' := by
  induction cols with
  | nil => cases hc
  | cons k ks ih =>
    by_cases hk : k = c
    · subst hk
      simp only [colIdx, if_pos rfl] at h
      by_cases hk' : k = c'
      · exact hk'
      · rw [if_neg hk'] at h
        cases h
    · have hc' : c ∈ ks := by
        rcases List.mem_cons.mp hc with h' | h'
        · exact absurd h'.symm hk
        · exact h'
      simp only [colIdx, if_neg hk] at h
      by_cases hk' : k = c'
      · rw [if_pos hk'] at h
        cases h
      · rw [if_neg hk'] at h
        exact ih hc' (Nat.succ_injective h)

theorem cols_mapCol (c : String) (f : Cell → Cell) (t : Table) :
    (mapCol c f t).cols = t.cols := rfl

theorem rows_mapCol (c : String) (f : Cell → Cell) (t : Table) :
    (mapCol c f t).rows = t.rows.map
      (fun r => stepOp r (colIdx c t.cols, f)) := rfl

theorem foldl_mapCol_eq (L : List String) (f : Cell → Cell) (t : Table) :
    L.foldl (fun s c => mapCol c f s) t =
      { cols := t.cols
        rows := t.rows.map (applyOps (L.map (fun c => (colIdx c t.cols, f)))) } := by
  induction L generalizing t with
  | nil =>
    show t = { cols := t.cols, rows := t.rows.map (applyOps []) }
    rw [show applyOps [] = id from rfl, List.map_id]
  | cons c L ih =>
    show L.foldl _ (mapCol c f t) = _
    rw [ih (mapCol c f t)]
    simp only [mapCol, List.map_map]
    rfl

theorem handle_missing_values_eq (t : Table) :
    handle_missing_values t =
      { cols := t.cols
        rows := (if LOCATION_COLS.filter (fun c => c ∈ t.cols) ≠ [] then
                   t.rows.filter (keepRow t.cols)
                 else t.rows).map (applyOps (hmvOps t.cols)) } := by
  simp only [handle_missing_values, ensure_columns_exist]
  by_cases hl : LOCATION_COLS.filter (fun c => c ∈ t.cols) ≠ []
  · rw [if_pos hl, if_pos hl]
    rw [foldl_mapCol_eq]
    by_cases hf : "CONTRIBUTING FACTOR VEHICLE 1" ∈ t.cols
    · rw [if_pos hf]
      simp only [hmvOps, if_pos hf, mapCol, List.map_map]
      apply congrArg
      apply List.map_congr_left
      intro r _
      rw [applyOps_append, applyOps_single]
      rfl
    · rw [if_neg hf]
      simp only [hmvOps, if_neg hf, List.append_nil]
      rfl
  · rw [if_neg hl, if_neg hl]
    rw [foldl_mapCol_eq]
    by_cases hf : "CONTRIBUTING FACTOR VEHICLE 1" ∈ t.cols
    · rw [if_pos hf]
      simp only [hmvOps, if_pos hf, mapCol, List.map_map]
      apply congrArg
      apply List.map_congr_left
      intro r _
      rw [applyOps_append, applyOps_single]
      rfl
    · rw [if_neg hf]
      simp only [hmvOps, if_neg hf, List.append_nil]

theorem clean_text_eq (t : Table) :
    clean_text t =
      { cols := t.cols, rows := t.rows.map (applyOps (ctOps t.cols)) } := by
  by_cases hb : "BOROUGH" ∈ t.cols
  · simp only [clean_text, ensure_columns_exist, foldl_mapCol_eq, cols_mapCol,
      rows_mapCol, if_pos hb, List.map_map, ctOps]
    apply congrArg
    apply List.map_congr_left
    intro r _
    simp only [Function.comp]
    rw [applyOps_append, applyOps_append, applyOps_single]
  · simp only [clean_text, ensure_columns_exist, foldl_mapCol_eq, cols_mapCol,
      rows_mapCol, if_neg hb, List.map_map, ctOps, List.append_nil]
    apply congrArg
    apply List.map_congr_left
    intro r _
    simp only [Function.comp]
    rw [applyOps_append]

theorem coerceInjuries_ok (L : List String) (t t' : Table)
    (h : coerceInjuries L t = Except.ok t') :
    t' = { cols := t.cols
           rows := t.rows.map
             (applyOps (L.map (fun c => (colIdx c t.cols, toInt64Cell)))) } := by
  induction L generalizing t with
  | nil =>
    simp only [coerceInjuries, Except.ok.injEq] at h
    subst h
    show t = { cols := t.cols, rows := t.rows.map (applyOps []) }
    rw [show applyOps [] = id from rfl, List.map_id]
  | cons c L ih =>
    simp only [coerceInjuries, coerceInjCol] at h
    by_cases hf :
        (t.rows.map (fun r => toNumCell (cellOf t.cols r c))).any isFracCell
    · rw [if_pos hf] at h
      cases h
    · rw [if_neg hf] at h
      rw [ih (mapCol c toInt64Cell t) h]
      simp only [mapCol, List.map_map]
      rfl

theorem correct_types_ok (t tc : Table) (h : correct_types t = Except.ok tc) :
    tc = { cols := t.cols, rows := t.rows.map (applyOps (ctypesOps t.cols)) } := by
  simp only [correct_types, ensure_columns_exist] at h
  simp only [foldl_mapCol_eq] at h
  have := coerceInjuries_ok _ _ _ h
  rw [this]
  simp only [ctypesOps, List.map_map]
  apply congrArg
  apply List.map_congr_left
  intro r _
  simp only [Function.comp]
  rw [applyOps_append, applyOps_append]

/-- C1: on the spec's three-row table, the pipeline drops row 2 (missing
geolocation), keeps rows with keys 1 and 3, maps row 1's borough to
"Brooklyn" and its factor1 to null, derives year 2021 for both remaining
rows, counts {2021 : 2} by year, and counts {"Brooklyn" : 1, "Queens" : 1}
by borough. -/
theorem claim_C1_scenario :
    scenarioView (runPipeline (fun _ => Except.ok ()) scT)
    = some
      { rowCount := 2
        keyCol := [Cell.int 1, Cell.int 3]
        boroughCol := [Cell.str "Brooklyn", Cell.str "Queens"]
        factor1Col := [Cell.null, Cell.str "Unknown"]
        yearCol := [Cell.int 2021, Cell.int 2021]
        yearCountList := some [(2021, 2)]
        brooklynCount := some (some 1)
        queensCount := some (some 1)
        boroughGroups := some 2 } := by decide

/-- C6: for every behavior of the columnar writer, the exporter emits both
line-delimited JSON exports; a columnar failure on either export is caught
and produces a warning naming that artifact; and a completed run exits 0 —
the columnar failure never aborts the run. -/
theorem claim_C6_parquet_best_effort
    (writer : String → Except String Unit) (e e' : String) :
    ExpEvent.jsonOk "collisions_raw.json" ∈ export_raw_and_clean writer ∧
    ExpEvent.jsonOk "collisions_clean.json" ∈ export_raw_and_clean writer ∧
    (writer "collisions_raw.parquet" = Except.error e →
      ExpEvent.warnSkip "collisions_raw.parquet" ∈ export_raw_and_clean writer) ∧
    (writer "collisions_clean.parquet" = Except.error e' →
      ExpEvent.warnSkip "collisions_clean.parquet" ∈ export_raw_and_clean writer) ∧
    (∀ (t : Table) (out : RunOut),
      runPipeline writer t = Except.ok out → out.exitCode = 0) := by
  refine ⟨?_, ?_, ?_, ?_, ?_⟩
  · simp only [export_raw_and_clean, List.mem_append, List.mem_singleton]
    tauto
  · simp only [export_raw_and_clean, List.mem_append, List.mem_singleton]
    tauto
  · intro h
    simp only [export_raw_and_clean, safe_to_parquet, h, List.mem_append,
      List.mem_singleton]
    tauto
  · intro h
    simp only [export_raw_and_clean, safe_to_parquet, h, List.mem_append,
      List.mem_singleton]
    tauto
  · intro t out h
    unfold runPipeline at h
    cases hc : correct_types (handle_missing_values t) with
    | error e'' =>
      rw [hc] at h
      exact absurd h (by simp)
    | ok t2 =>
      rw [hc] at h
      simp only [Except.ok.injEq] at h
      rw [← h]

/-- Witness for C6: a writer that fails deterministically on every columnar
write still yields both JSON exports, warnings for both Parquet artifacts,
and exit code 0 on the scenario table. -/
theorem claim_C6_parquet_best_effort_witness :
    ExpEvent.jsonOk "collisions_raw.json"
        ∈ export_raw_and_clean (fun _ => Except.error "no engine") ∧
    ExpEvent.jsonOk "collisions_clean.json"
        ∈ export_raw_and_clean (fun _ => Except.error "no engine") ∧
    ExpEvent.warnSkip "collisions_raw.parquet"
        ∈ export_raw_and_clean (fun _ => Except.error "no engine") ∧
    ExpEvent.warnSkip "collisions_clean.parquet"
        ∈ export_raw_and_clean (fun _ => Except.error "no engine") := by
  have h := claim_C6_parquet_best_effort
    (fun _ => Except.error "no engine") "no engine" "no engine"
  exact ⟨h.1, h.2.1, h.2.2.1 rfl, h.2.2.2.1 rfl⟩

end Collisions

namespace Collisions

theorem fillCell_ne_null (v x : Cell) (hv : v ≠ Cell.null) :
    fillCell v x ≠ Cell.null := by
  cases x <;> simp_all [fillCell]

theorem hmvOps_mem_names (cols : List String) (p : ℕ × (Cell → Cell))
    (hp : p ∈ hmvOps cols) :
    ∃ c, (c ∈ INJURY_COLS ∨ c = "CONTRIBUTING FACTOR VEHICLE 1") ∧
      c ∈ cols ∧ p.1 = colIdx c cols := by
  simp only [hmvOps, List.mem_append] at hp
  rcases hp with hp | hp
  · rcases List.mem_map.mp hp with ⟨c, hcf, rfl⟩
    have h := List.mem_filter.mp hcf
    exact ⟨c, Or.inl h.1, of_decide_eq_true h.2, rfl⟩
  · by_cases hf : "CONTRIBUTING FACTOR VEHICLE 1" ∈ cols
    · rw [if_pos hf] at hp
      have := List.mem_singleton.mp hp
      subst this
      exact ⟨"CONTRIBUTING FACTOR VEHICLE 1", Or.inr rfl, hf, rfl⟩
    · rw [if_neg hf] at hp
      cases hp

/-- C7: when the schema holds both geolocation columns and all eight injury
columns, every row surviving MissingValueHandler has non-null latitude and
longitude, and every injury cell of the output is non-null. -/
theorem claim_C7_geo_injury_nonnull (t : Table)
    (hlat : "LATITUDE" ∈ t.cols) (hlon : "LONGITUDE" ∈ t.cols)
    (hinj : ∀ c ∈ INJURY_COLS, c ∈ t.cols) :
    ∀ r ∈ (handle_missing_values t).rows,
      (cellOf t.cols r "LATITUDE" ≠ Cell.null ∧
       cellOf t.cols r "LONGITUDE" ≠ Cell.null) ∧
      ∀ c ∈ INJURY_COLS, cellOf t.cols r c ≠ Cell.null := by
  have hfil : LOCATION_COLS.filter (fun c => c ∈ t.cols)
      = ["LATITUDE", "LONGITUDE"] := by
    simp [LOCATION_COLS, hlat, hlon]
  rw [handle_missing_values_eq, hfil]
  rw [if_pos (by simp : (["LATITUDE", "LONGITUDE"] : List String) ≠ [])]
  intro r' hr'
  rcases List.mem_map.mp hr' with ⟨r, hrmem, rfl⟩
  have hkeep := (List.mem_filter.mp hrmem).2
  have hkLoc : cellOf t.cols r "LATITUDE" ≠ Cell.null ∧
      cellOf t.cols r "LONGITUDE" ≠ Cell.null := by
    simp only [keepRow, hfil, List.all_cons, List.all_nil, Bool.and_true,
      Bool.and_eq_true, decide_eq_true_eq] at hkeep
    exact hkeep
  have huntouchedLoc : ∀ cL, cL = "LATITUDE" ∨ cL = "LONGITUDE" →
      cellOf t.cols (applyOps (hmvOps t.cols) r) cL = cellOf t.cols r cL := by
    intro cL hcL
    show getAt _ _ = _
    rw [getAt_applyOps]
    apply compApp_untouched
    intro p hp hpe
    rcases hmvOps_mem_names _ _ hp with ⟨c, hrole, hcc, hidx⟩
    have hceq : c = cL := colIdx_inj t.cols c cL hcc (by rw [← hidx, hpe])
    subst hceq
    rcases hcL with h | h <;> subst h <;>
      rcases hrole with h' | h' <;> revert h' <;> decide
  refine ⟨⟨?_, ?_⟩, ?_⟩
  · rw [huntouchedLoc "LATITUDE" (Or.inl rfl)]
    exact hkLoc.1
  · rw [huntouchedLoc "LONGITUDE" (Or.inr rfl)]
    exact hkLoc.2
  · intro c hc
    have hpres := hinj c hc
    show getAt _ _ ≠ _
    rw [getAt_applyOps]
    show compApp (_ ++ _) _ _ ≠ _
    rw [compApp_append]
    have hA : (INJURY_COLS.filter (fun c => c ∈ t.cols)).map
        (fun c => (colIdx c t.cols, fillCell (Cell.num 0)))
        = ((INJURY_COLS.filter (fun c => c ∈ t.cols)).map
            (fun c => colIdx c t.cols)).map
          (fun i => (i, fillCell (Cell.num 0))) := by
      rw [List.map_map]
      rfl
    rw [hA, compApp_nodup]
    · rw [if_pos (List.mem_map.mpr ⟨c,
        List.mem_filter.mpr ⟨hc, decide_eq_true hpres⟩, rfl⟩)]
      have huB : ∀ p ∈ (if "CONTRIBUTING FACTOR VEHICLE 1" ∈ t.cols then
          [(colIdx "CONTRIBUTING FACTOR VEHICLE 1" t.cols,
            fillCell (Cell.str "Unknown"))] else []),
          p.1 ≠ colIdx c t.cols := by
        intro p hp hpe
        by_cases hf : "CONTRIBUTING FACTOR VEHICLE 1" ∈ t.cols
        · rw [if_pos hf] at hp
          have := List.mem_singleton.mp hp
          subst this
          have : "CONTRIBUTING FACTOR VEHICLE 1" = c :=
            colIdx_inj t.cols _ c hf hpe
          rw [← this] at hc
          revert hc
          decide
        · rw [if_neg hf] at hp
          cases hp
      rw [compApp_untouched _ _ huB]
      exact fillCell_ne_null _ _ (by decide)
    · apply List.Nodup.map_on
      · intro x hx y hy hxy
        exact colIdx_inj t.cols x y
          (of_decide_eq_true (List.mem_filter.mp hx).2) hxy
      · exact List.Nodup.filter _ (by decide)

/-- Witness for C7: on the concrete two-row geolocation + injury table, the
second row (null longitude) is dropped; the surviving row has non-null
latitude and longitude and a non-null (zero-filled) injury cell. -/
theorem claim_C7_geo_injury_nonnull_witness :
    cellOf geoInjT.cols
        [Cell.num 1, Cell.num 2, Cell.num 0, Cell.num 1, Cell.num 0,
         Cell.num 0, Cell.num 0, Cell.num 3, Cell.num 0, Cell.num 0]
        "LATITUDE" ≠ Cell.null ∧
    cellOf geoInjT.cols
        [Cell.num 1, Cell.num 2, Cell.num 0, Cell.num 1, Cell.num 0,
         Cell.num 0, Cell.num 0, Cell.num 3, Cell.num 0, Cell.num 0]
        "LONGITUDE" ≠ Cell.null ∧
    cellOf geoInjT.cols
        [Cell.num 1, Cell.num 2, Cell.num 0, Cell.num 1, Cell.num 0,
         Cell.num 0, Cell.num 0, Cell.num 3, Cell.num 0, Cell.num 0]
        "NUMBER OF PERSONS INJURED" ≠ Cell.null := by
  have h := claim_C7_geo_injury_nonnull geoInjT (by decide) (by decide)
    (by decide)
    [Cell.num 1, Cell.num 2, Cell.num 0, Cell.num 1, Cell.num 0,
     Cell.num 0, Cell.num 0, Cell.num 3, Cell.num 0, Cell.num 0]
    (by decide)
  exact ⟨h.1.1, h.1.2, h.2 "NUMBER OF PERSONS INJURED" (by decide)⟩

end Collisions

namespace Collisions

theorem replaceUnspec_ne (y : Cell) :
    replaceUnspecCell y ≠ Cell.str "Unspecified" := by
  by_cases h : y = Cell.str "Unspecified" <;> simp [replaceUnspecCell, h]

theorem compApp_ctOps_factor (cols : List String) (c : String)
    (hc : c ∈ FACTOR_COLS) (hp : c ∈ cols) (x : Cell) :
    compApp (ctOps cols) (colIdx c cols) x =
      replaceUnspecCell (stripCell x) := by
  have hT : c ∈ TEXT_COLS := by fin_cases hc <;> decide
  have hB : c ≠ "BOROUGH" := by fin_cases hc <;> decide
  show compApp (_ ++ _ ++ _) _ _ = _
  rw [compApp_append, compApp_append]
  have hA : (TEXT_COLS.filter (fun c => c ∈ cols)).map
      (fun c => (colIdx c cols, stripCell))
      = ((TEXT_COLS.filter (fun c => c ∈ cols)).map
          (fun c => colIdx c cols)).map (fun i => (i, stripCell)) := by
    rw [List.map_map]
    rfl
  have hC : (FACTOR_COLS.filter (fun c => c ∈ cols)).map
      (fun c => (colIdx c cols, replaceUnspecCell))
      = ((FACTOR_COLS.filter (fun c => c ∈ cols)).map
          (fun c => colIdx c cols)).map (fun i => (i, replaceUnspecCell)) := by
    rw [List.map_map]
    rfl
  have hndT : ((TEXT_COLS.filter (fun c => c ∈ cols)).map
      (fun c => colIdx c cols)).Nodup := by
    apply List.Nodup.map_on
    · intro x' hx y hy hxy
      exact colIdx_inj cols x' y
        (of_decide_eq_true (List.mem_filter.mp hx).2) hxy
    · exact List.Nodup.filter _ (by decide)
  have hndF : ((FACTOR_COLS.filter (fun c => c ∈ cols)).map
      (fun c => colIdx c cols)).Nodup := by
    apply List.Nodup.map_on
    · intro x' hx y hy hxy
      exact colIdx_inj cols x' y
        (of_decide_eq_true (List.mem_filter.mp hx).2) hxy
    · exact List.Nodup.filter _ (by decide)
  rw [hA, compApp_nodup _ _ _ hndT,
    if_pos (List.mem_map.mpr ⟨c, List.mem_filter.mpr ⟨hT, decide_eq_true hp⟩, rfl⟩)]
  have hmid : compApp (if "BOROUGH" ∈ cols then
      [(colIdx "BOROUGH" cols, titleCell)] else []) (colIdx c cols)
      (stripCell x) = stripCell x := by
    apply compApp_untouched
    intro p hpm hpe
    by_cases hb : "BOROUGH" ∈ cols
    · rw [if_pos hb] at hpm
      have := List.mem_singleton.mp hpm
      subst this
      exact hB (colIdx_inj cols c "BOROUGH" hp hpe.symm)
    · rw [if_neg hb] at hpm
      cases hpm
  rw [hmid, hC, compApp_nodup _ _ _ hndF,
    if_pos (List.mem_map.mpr ⟨c, List.mem_filter.mpr ⟨hc, decide_eq_true hp⟩, rfl⟩)]

/-- C8: after TextNormalizer, a present contributing-factor column is
exactly the stripped source column with the literal "Unspecified" replaced
by null — so no output cell equals "Unspecified", and any cell whose
stripped value differs from that exact literal (substring or case variants
included) is kept, not replaced. -/
theorem claim_C8_sentinel_removed (t : Table) (c : String)
    (hc : c ∈ FACTOR_COLS) (hp : c ∈ t.cols) :
    colCells (clean_text t) c =
      (colCells t c).map (fun v => replaceUnspecCell (stripCell v)) ∧
    ∀ v ∈ colCells (clean_text t) c, v ≠ Cell.str "Unspecified" := by
  have hmain : colCells (clean_text t) c =
      (colCells t c).map (fun v => replaceUnspecCell (stripCell v)) := by
    rw [clean_text_eq]
    simp only [colCells, cellOf, List.map_map]
    apply List.map_congr_left
    intro r _
    simp only [Function.comp]
    rw [getAt_applyOps, compApp_ctOps_factor t.cols c hc hp]
  refine ⟨hmain, ?_⟩
  rw [hmain]
  intro v hv
  rcases List.mem_map.mp hv with ⟨x, _, rfl⟩
  exact replaceUnspec_ne _

/-- Witness for C8: on the concrete factor-column table, the normalized
column is [Unknown-unchanged-free] as computed, and no cell equals
"Unspecified". -/
theorem claim_C8_sentinel_removed_witness :
    colCells (clean_text unkT) "CONTRIBUTING FACTOR VEHICLE 1" =
      (colCells unkT "CONTRIBUTING FACTOR VEHICLE 1").map
        (fun v => replaceUnspecCell (stripCell v)) ∧
    ∀ v ∈ colCells (clean_text unkT) "CONTRIBUTING FACTOR VEHICLE 1",
      v ≠ Cell.str "Unspecified" :=
  claim_C8_sentinel_removed unkT "CONTRIBUTING FACTOR VEHICLE 1"
    (by decide) (by decide)

end Collisions

namespace Collisions

theorem compApp_hmvOps_factor1 (cols : List String)
    (hp : "CONTRIBUTING FACTOR VEHICLE 1" ∈ cols) (x : Cell) :
    compApp (hmvOps cols) (colIdx "CONTRIBUTING FACTOR VEHICLE 1" cols) x =
      fillCell (Cell.str "Unknown") x := by
  show compApp (_ ++ _) _ _ = _
  rw [compApp_append]
  have huA : ∀ p ∈ (INJURY_COLS.filter (fun c => c ∈ cols)).map
      (fun c => (colIdx c cols, fillCell (Cell.num 0))),
      p.1 ≠ colIdx "CONTRIBUTING FACTOR VEHICLE 1" cols := by
    intro p hpm hpe
    rcases List.mem_map.mp hpm with ⟨c, hcf, rfl⟩
    have hm := List.mem_filter.mp hcf
    have : c = "CONTRIBUTING FACTOR VEHICLE 1" :=
      colIdx_inj cols c _ (of_decide_eq_true hm.2) hpe
    subst this
    have := hm.1
    revert this
    decide
  rw [compApp_untouched _ _ huA, if_pos hp]
  show (if _ = _ then _ else _) = _
  rw [if_pos rfl]

theorem ctypesOps_mem_names (cols : List String) (p : ℕ × (Cell → Cell))
    (hp : p ∈ ctypesOps cols) :
    ∃ c, (c ∈ DATE_COLS ∨ c ∈ TIME_COLS ∨ c ∈ INJURY_COLS) ∧
      c ∈ cols ∧ p.1 = colIdx c cols := by
  simp only [ctypesOps, List.mem_append] at hp
  rcases hp with (hp | hp) | hp
  · rcases List.mem_map.mp hp with ⟨c, hcf, rfl⟩
    have h := List.mem_filter.mp hcf
    exact ⟨c, Or.inl h.1, of_decide_eq_true h.2, rfl⟩
  · rcases List.mem_map.mp hp with ⟨c, hcf, rfl⟩
    have h := List.mem_filter.mp hcf
    exact ⟨c, Or.inr (Or.inl h.1), of_decide_eq_true h.2, rfl⟩
  · rcases List.mem_map.mp hp with ⟨c, hcf, rfl⟩
    have h := List.mem_filter.mp hcf
    exact ⟨c, Or.inr (Or.inr h.1), of_decide_eq_true h.2, rfl⟩

theorem compApp_ctypesOps_factor1 (cols : List String)
    (_hp : "CONTRIBUTING FACTOR VEHICLE 1" ∈ cols) (x : Cell) :
    compApp (ctypesOps cols) (colIdx "CONTRIBUTING FACTOR VEHICLE 1" cols) x
      = x := by
  apply compApp_untouched
  intro p hpm hpe
  rcases ctypesOps_mem_names cols p hpm with ⟨c, hrole, hcc, hidx⟩
  have : c = "CONTRIBUTING FACTOR VEHICLE 1" :=
    colIdx_inj cols c _ hcc (by rw [← hidx, hpe])
  subst this
  rcases hrole with h | h | h <;> revert h <;> decide

/-- C10: through the full pipeline, a surviving row's first
contributing-factor cell becomes null-fill-with-"Unknown" (stage 2) then
strip and exact-sentinel-replace (stage 4); hence a null source cell ends as
the literal string "Unknown" (never replaced back to null), while an
"Unspecified" source cell ends as null. -/
theorem claim_C10_factor1_null_fill (t : Table)
    (hp : "CONTRIBUTING FACTOR VEHICLE 1" ∈ t.cols) (t2 : Table)
    (hok : correct_types (handle_missing_values t) = Except.ok t2) :
    colCells (clean_text t2) "CONTRIBUTING FACTOR VEHICLE 1" =
      (keptRows t).map (pipeFactor1 t.cols) ∧
    ∀ r ∈ keptRows t,
      (cellOf t.cols r "CONTRIBUTING FACTOR VEHICLE 1" = Cell.null →
        pipeFactor1 t.cols r = Cell.str "Unknown") ∧
      (cellOf t.cols r "CONTRIBUTING FACTOR VEHICLE 1"
          = Cell.str "Unspecified" →
        pipeFactor1 t.cols r = Cell.null) := by
  constructor
  · have h2 := correct_types_ok _ _ hok
    rw [handle_missing_values_eq] at h2
    subst h2
    rw [clean_text_eq]
    simp only [colCells, cellOf, List.map_map, keptRows]
    apply List.map_congr_left
    intro r _
    simp only [Function.comp]
    rw [getAt_applyOps, getAt_applyOps, getAt_applyOps,
      compApp_ctOps_factor t.cols _ (by decide) hp,
      compApp_ctypesOps_factor1 t.cols hp,
      compApp_hmvOps_factor1 t.cols hp]
    rfl
  · intro r _
    constructor
    · intro h
      simp only [pipeFactor1, h]
      decide
    · intro h
      simp only [pipeFactor1, h]
      decide

/-- Witness for C10: on the two-row factor-column table, the null cell ends
as "Unknown" and the "Unspecified" cell ends as null. -/
theorem claim_C10_factor1_null_fill_witness :
    ∃ t2, correct_types (handle_missing_values unkT) = Except.ok t2 ∧
      (colCells (clean_text t2) "CONTRIBUTING FACTOR VEHICLE 1" =
        (keptRows unkT).map (pipeFactor1 unkT.cols) ∧
      ∀ r ∈ keptRows unkT,
        (cellOf unkT.cols r "CONTRIBUTING FACTOR VEHICLE 1" = Cell.null →
          pipeFactor1 unkT.cols r = Cell.str "Unknown") ∧
        (cellOf unkT.cols r "CONTRIBUTING FACTOR VEHICLE 1"
            = Cell.str "Unspecified" →
          pipeFactor1 unkT.cols r = Cell.null)) := by
  refine ⟨{ cols := ["CONTRIBUTING FACTOR VEHICLE 1"]
            rows := [[Cell.str "Unknown"], [Cell.str "Unspecified"]] },
    by decide, ?_⟩
  exact claim_C10_factor1_null_fill unkT (by decide) _ (by decide)

end Collisions

namespace Collisions

theorem getAt_setAt_ne (r : List Cell) (i : ℕ) (v : Cell) (n : ℕ)
    (h : i ≠ n) : getAt (setAt r i v) n = getAt r n := by
  rw [getAt_setAt, if_neg h]

theorem colIdx_lt_of_mem (c : String) (l : List String) (hc : c ∈ l) :
    colIdx c l < l.length := by
  induction l with
  | nil => cases hc
  | cons k ks ih =>
    by_cases hk : k = c
    · simp [colIdx, hk]
    · have : c ∈ ks := by
        rcases List.mem_cons.mp hc with h | h
        · exact absurd h.symm hk
        · exact h
      simp only [colIdx, if_neg hk, List.length_cons]
      exact Nat.succ_lt_succ (ih this)

theorem colIdx_append_of_mem (c : String) (l l₂ : List String) (hc : c ∈ l) :
    colIdx c (l ++ l₂) = colIdx c l := by
  induction l with
  | nil => cases hc
  | cons k ks ih =>
    by_cases hk : k = c
    · simp [colIdx, hk]
    · have : c ∈ ks := by
        rcases List.mem_cons.mp hc with h | h
        · exact absurd h.symm hk
        · exact h
      simp only [List.cons_append, colIdx, if_neg hk, List.append_eq]
      rw [ih this]

theorem colIdx_append_self (c : String) (l : List String) (hc : c ∉ l) :
    colIdx c (l ++ [c]) = l.length := by
  induction l with
  | nil => simp [colIdx]
  | cons k ks ih =>
    have hk : k ≠ c := fun h => hc (h ▸ List.mem_cons_self k ks)
    simp only [List.cons_append, colIdx, if_neg hk, List.length_cons,
      List.append_eq]
    rw [ih (fun h => hc (List.mem_cons_of_mem k h))]

theorem mem_setColFrom_cols (t : Table) (c src : String) (f : Cell → Cell)
    (c'' : String) :
    c'' ∈ (setColFrom c src f t).cols ↔ (c'' ∈ t.cols ∨ c'' = c) := by
  by_cases hc : c ∈ t.cols
  · simp only [setColFrom, if_pos hc]
    constructor
    · exact Or.inl
    · rintro (h | rfl)
      · exact h
      · exact hc
  · simp only [setColFrom, if_neg hc, List.mem_append, List.mem_singleton]

theorem colIdx_setColFrom_of_mem (t : Table) (c src c' : String)
    (f : Cell → Cell) (hc' : c' ∈ t.cols) :
    colIdx c' (setColFrom c src f t).cols = colIdx c' t.cols := by
  by_cases hc : c ∈ t.cols
  · simp only [setColFrom, if_pos hc]
  · simp only [setColFrom, if_neg hc]
    exact colIdx_append_of_mem c' t.cols [c] hc'

theorem colIdx_setColFrom_sep (t : Table) (c src c' : String)
    (f : Cell → Cell) (hc' : c' ∈ t.cols) (hne : c' ≠ c) :
    colIdx c (setColFrom c src f t).cols
      ≠ colIdx c' (setColFrom c src f t).cols := by
  rw [colIdx_setColFrom_of_mem t c src c' f hc']
  by_cases hc : c ∈ t.cols
  · simp only [setColFrom, if_pos hc]
    intro h
    exact hne (colIdx_inj t.cols c' c hc' h.symm)
  · simp only [setColFrom, if_neg hc]
    rw [colIdx_append_self c t.cols hc]
    intro h
    exact Nat.lt_irrefl _ (h ▸ colIdx_lt_of_mem c' t.cols hc')

theorem cellOf_setColFrom_row (t : Table) (c src c' : String)
    (f : Cell → Cell) (hc' : c' ∈ t.cols) (hne : c' ≠ c) (r : List Cell) :
    cellOf (setColFrom c src f t).cols
      (setAt r (colIdx c (setColFrom c src f t).cols)
        (f (cellOf t.cols r src))) c' = cellOf t.cols r c' := by
  show getAt _ _ = _
  rw [colIdx_setColFrom_of_mem t c src c' f hc']
  rw [getAt_setAt_ne _ _ _ _ (by
    have := colIdx_setColFrom_sep t c src c' f hc' hne
    rw [colIdx_setColFrom_of_mem t c src c' f hc'] at this
    exact this)]
  rfl

theorem rows_setColFrom (t : Table) (c src : String) (f : Cell → Cell) :
    (setColFrom c src f t).rows = t.rows.map
      (fun r => setAt r (colIdx c (setColFrom c src f t).cols)
        (f (cellOf t.cols r src))) := rfl

theorem colCells_setColFrom_ne (t : Table) (c src c' : String)
    (f : Cell → Cell) (hc' : c' ∈ t.cols) (hne : c' ≠ c) :
    colCells (setColFrom c src f t) c' = colCells t c' := by
  simp only [colCells, rows_setColFrom, List.map_map]
  apply List.map_congr_left
  intro r _
  exact cellOf_setColFrom_row t c src c' f hc' hne r

end Collisions

namespace Collisions

theorem fg_snd (t : Table) : (filter_and_group t).2 = addYear t := rfl

theorem addYear_of_not_mem (t : Table) (hd : "CRASH_DATE" ∉ t.cols) :
    addYear t = t := by
  rw [addYear, if_neg hd]

theorem stats_setColFrom_year (t : Table) :
    statistical_summaries (setColFrom "YEAR" "CRASH_DATE" yearOfCell t)
      = statistical_summaries t := by
  have hmem := mem_setColFrom_cols t "YEAR" "CRASH_DATE" yearOfCell
  have hens : ensure_columns_exist
      (setColFrom "YEAR" "CRASH_DATE" yearOfCell t) INJURY_COLS
      = ensure_columns_exist t INJURY_COLS := by
    simp only [ensure_columns_exist]
    apply List.filter_congr
    intro c hc
    have hy : c ≠ "YEAR" := by fin_cases hc <;> decide
    apply decide_eq_decide.mpr
    constructor
    · intro h
      rcases (hmem c).1 h with h' | h'
      · exact h'
      · exact absurd h' hy
    · intro h
      exact (hmem c).2 (Or.inl h)
  have hfac : "CONTRIBUTING FACTOR VEHICLE 1"
        ∈ (setColFrom "YEAR" "CRASH_DATE" yearOfCell t).cols
      ↔ "CONTRIBUTING FACTOR VEHICLE 1" ∈ t.cols := by
    constructor
    · intro h
      rcases (hmem _).1 h with h' | h'
      · exact h'
      · exact absurd h' (by decide)
    · intro h
      exact (hmem _).2 (Or.inl h)
  have hbor : "BOROUGH" ∈ (setColFrom "YEAR" "CRASH_DATE" yearOfCell t).cols
      ↔ "BOROUGH" ∈ t.cols := by
    constructor
    · intro h
      rcases (hmem _).1 h with h' | h'
      · exact h'
      · exact absurd h' (by decide)
    · intro h
      exact (hmem _).2 (Or.inl h)
  have hkeys : "BOROUGH" ∈ t.cols →
      (setColFrom "YEAR" "CRASH_DATE" yearOfCell t).rows.filterMap
        (boroughKey (setColFrom "YEAR" "CRASH_DATE" yearOfCell t).cols)
      = t.rows.filterMap (boroughKey t.cols) := by
    intro hb
    rw [rows_setColFrom, List.filterMap_map]
    apply List.filterMap_congr
    intro r _
    simp only [Function.comp]
    unfold boroughKey
    rw [cellOf_setColFrom_row t "YEAR" "CRASH_DATE" "BOROUGH" yearOfCell hb
      (by decide)]
  simp only [statistical_summaries]
  congr 1
  · rw [hens]
    by_cases he : ensure_columns_exist t INJURY_COLS ≠ []
    · rw [if_pos he, if_pos he]
      apply congrArg
      apply List.map_congr_left
      intro c hc
      have h1 := List.mem_filter.mp hc
      have hcy : c ≠ "YEAR" := by
        have hall : ∀ x ∈ INJURY_COLS, x ≠ "YEAR" := by decide
        exact hall c h1.1
      rw [colCells_setColFrom_ne t "YEAR" "CRASH_DATE" c yearOfCell
        (of_decide_eq_true h1.2) hcy]
    · rw [if_neg he, if_neg he]
  · by_cases hf : "CONTRIBUTING FACTOR VEHICLE 1" ∈ t.cols
    · rw [if_pos (hfac.mpr hf), if_pos hf]
      apply congrArg
      exact colCells_setColFrom_ne t "YEAR" "CRASH_DATE" _ yearOfCell hf
        (by decide)
    · rw [if_neg (fun h => hf (hfac.mp h)), if_neg hf]
  · by_cases hb : "BOROUGH" ∈ t.cols
    · rw [if_pos (hbor.mpr hb), if_pos hb, hkeys hb]
    · rw [if_neg (fun h => hb (hbor.mp h)), if_neg hb]
  · by_cases hb : "BOROUGH" ∈ t.cols
    · rw [if_pos (hbor.mpr hb), if_pos hb, hkeys hb]
    · rw [if_neg (fun h => hb (hbor.mp h)), if_neg hb]

theorem stats_addYear (t : Table) :
    statistical_summaries (addYear t) = statistical_summaries t := by
  by_cases hd : "CRASH_DATE" ∈ t.cols
  · rw [addYear, if_pos hd]
    exact stats_setColFrom_year t
  · rw [addYear, if_neg hd]

/-- C3 (amended): Aggregator and StatisticsReporter commute — running them
in either order yields the same artifacts, because StatisticsReporter reads
no column Aggregator writes — and StatisticsReporter never changes the
table; but Aggregator mutates it: when the crash-date column is present it
appends (or overwrites) the derived YEAR column, so Exporter receives the
TextNormalizer table extended with YEAR (same row count, every original
non-YEAR column unchanged) rather than the identical table. -/
theorem claim_C3_amended_frame (t : Table) :
    statistical_summaries ((filter_and_group t).2) = statistical_summaries t ∧
    (filter_and_group t).2.rows.length = t.rows.length ∧
    (∀ c ∈ t.cols, c ≠ "YEAR" →
      colCells ((filter_and_group t).2) c = colCells t c) ∧
    ("CRASH_DATE" ∉ t.cols → (filter_and_group t).2 = t) ∧
    ("CRASH_DATE" ∈ t.cols → "YEAR" ∉ t.cols →
      (filter_and_group t).2.cols = t.cols ++ ["YEAR"]) := by
  rw [fg_snd]
  refine ⟨stats_addYear t, ?_, ?_, ?_, ?_⟩
  · by_cases hd : "CRASH_DATE" ∈ t.cols
    · rw [addYear, if_pos hd, rows_setColFrom, List.length_map]
    · rw [addYear, if_neg hd]
  · intro c hc hcy
    by_cases hd : "CRASH_DATE" ∈ t.cols
    · rw [addYear, if_pos hd]
      exact colCells_setColFrom_ne t "YEAR" "CRASH_DATE" c yearOfCell hc hcy
    · rw [addYear, if_neg hd]
  · exact addYear_of_not_mem t
  · intro hd hy
    rw [addYear, if_pos hd]
    simp only [setColFrom, if_neg hy]

/-- Counterexample to C3 as stated: on the spec's own scenario table the
exporter receives a table whose column list carries the extra derived YEAR
column, so it is not "exactly the table produced by TextNormalizer". -/
theorem claim_C3_counterexample :
    (runPipeline (fun _ => Except.ok ()) scT).map (fun out => out.exported.cols)
      = Except.ok (scCols ++ ["YEAR"]) ∧
    (correct_types (handle_missing_values scT)).map
      (fun t2 => (clean_text t2).cols) = Except.ok scCols ∧
    scCols ++ ["YEAR"] ≠ scCols := by
  refine ⟨by decide, by decide, by decide⟩

/-- Witness for the amended C3 on a concrete table: statistics are
order-insensitive, the exporter table gains exactly the YEAR column, and the
original crash-date column is unchanged. -/
theorem claim_C3_amended_frame_witness :
    statistical_summaries ((filter_and_group dateOnlyT).2)
      = statistical_summaries dateOnlyT ∧
    (filter_and_group dateOnlyT).2.cols = dateOnlyT.cols ++ ["YEAR"] ∧
    colCells ((filter_and_group dateOnlyT).2) "CRASH_DATE"
      = colCells dateOnlyT "CRASH_DATE" := by
  have h := claim_C3_amended_frame dateOnlyT
  exact ⟨h.1, h.2.2.2.2 (by decide) (by decide),
    h.2.2.1 "CRASH_DATE" (by decide) (by decide)⟩

end Collisions

namespace Collisions

theorem parseDateCell_shape (x : Cell) :
    parseDateCell x = Cell.null
      ∨ ∃ y m d, parseDateCell x = Cell.date y m d := by
  unfold parseDateCell
  cases x <;> simp
  case str s =>
    repeat' split
    all_goals simp

theorem parseTimeCell_shape (x : Cell) :
    parseTimeCell x = Cell.null
      ∨ ∃ h m, parseTimeCell x = Cell.time h m := by
  unfold parseTimeCell
  cases x <;> simp
  case str s =>
    repeat' split
    all_goals simp

theorem toInt64Cell_shape (x : Cell) :
    toInt64Cell x = Cell.null ∨ ∃ n, toInt64Cell x = Cell.int n := by
  unfold toInt64Cell
  repeat' split
  all_goals simp

theorem compApp_ctypesOps_date (cols : List String)
    (hp : "CRASH_DATE" ∈ cols) (x : Cell) :
    compApp (ctypesOps cols) (colIdx "CRASH_DATE" cols) x
      = parseDateCell x := by
  show compApp (_ ++ _ ++ _) _ _ = _
  rw [compApp_append, compApp_append]
  have hA : (DATE_COLS.filter (fun c => c ∈ cols)).map
      (fun c => (colIdx c cols, parseDateCell))
      = ((DATE_COLS.filter (fun c => c ∈ cols)).map
          (fun c => colIdx c cols)).map (fun i => (i, parseDateCell)) := by
    rw [List.map_map]
    rfl
  have hnd : ((DATE_COLS.filter (fun c => c ∈ cols)).map
      (fun c => colIdx c cols)).Nodup := by
    apply List.Nodup.map_on
    · intro x' hx y hy hxy
      exact colIdx_inj cols x' y
        (of_decide_eq_true (List.mem_filter.mp hx).2) hxy
    · exact List.Nodup.filter _ (by decide)
  rw [hA, compApp_nodup _ _ _ hnd,
    if_pos (List.mem_map.mpr ⟨"CRASH_DATE",
      List.mem_filter.mpr ⟨by decide, decide_eq_true hp⟩, rfl⟩)]
  have hmidB : ∀ p ∈ (TIME_COLS.filter (fun c => c ∈ cols)).map
      (fun c => (colIdx c cols, parseTimeCell)),
      p.1 ≠ colIdx "CRASH_DATE" cols := by
    intro p hpm hpe
    rcases List.mem_map.mp hpm with ⟨c, hcf, rfl⟩
    have hm := List.mem_filter.mp hcf
    have hcd : c = "CRASH_DATE" :=
      colIdx_inj cols c _ (of_decide_eq_true hm.2) hpe
    subst hcd
    have := hm.1
    revert this
    decide
  have hmidC : ∀ p ∈ (INJURY_COLS.filter (fun c => c ∈ cols)).map
      (fun c => (colIdx c cols, toInt64Cell)),
      p.1 ≠ colIdx "CRASH_DATE" cols := by
    intro p hpm hpe
    rcases List.mem_map.mp hpm with ⟨c, hcf, rfl⟩
    have hm := List.mem_filter.mp hcf
    have hcd : c = "CRASH_DATE" :=
      colIdx_inj cols c _ (of_decide_eq_true hm.2) hpe
    subst hcd
    have := hm.1
    revert this
    decide
  rw [compApp_untouched _ _ hmidB, compApp_untouched _ _ hmidC]

theorem compApp_ctypesOps_injury (cols : List String) (c : String)
    (hc : c ∈ INJURY_COLS) (hp : c ∈ cols) (x : Cell) :
    compApp (ctypesOps cols) (colIdx c cols) x = toInt64Cell x := by
  have hcd : c ≠ "CRASH_DATE" := by fin_cases hc <;> decide
  have hct : c ≠ "CRASH_TIME" := by fin_cases hc <;> decide
  show compApp (_ ++ _ ++ _) _ _ = _
  rw [compApp_append, compApp_append]
  have huA : ∀ p ∈ (DATE_COLS.filter (fun c => c ∈ cols)).map
      (fun c => (colIdx c cols, parseDateCell)), p.1 ≠ colIdx c cols := by
    intro p hpm hpe
    rcases List.mem_map.mp hpm with ⟨c', hcf, rfl⟩
    have hm := List.mem_filter.mp hcf
    have : c' = c := colIdx_inj cols c' c (of_decide_eq_true hm.2) hpe
    subst this
    have hd := hm.1
    rw [show DATE_COLS = ["CRASH_DATE"] from rfl] at hd
    exact hcd (List.mem_singleton.mp hd)
  have huB : ∀ p ∈ (TIME_COLS.filter (fun c => c ∈ cols)).map
      (fun c => (colIdx c cols, parseTimeCell)), p.1 ≠ colIdx c cols := by
    intro p hpm hpe
    rcases List.mem_map.mp hpm with ⟨c', hcf, rfl⟩
    have hm := List.mem_filter.mp hcf
    have : c' = c := colIdx_inj cols c' c (of_decide_eq_true hm.2) hpe
    subst this
    have hd := hm.1
    rw [show TIME_COLS = ["CRASH_TIME"] from rfl] at hd
    exact hct (List.mem_singleton.mp hd)
  rw [compApp_untouched _ _ huA, compApp_untouched _ _ huB]
  have hC : (INJURY_COLS.filter (fun c => c ∈ cols)).map
      (fun c => (colIdx c cols, toInt64Cell))
      = ((INJURY_COLS.filter (fun c => c ∈ cols)).map
          (fun c => colIdx c cols)).map (fun i => (i, toInt64Cell)) := by
    rw [List.map_map]
    rfl
  have hnd : ((INJURY_COLS.filter (fun c => c ∈ cols)).map
      (fun c => colIdx c cols)).Nodup := by
    apply List.Nodup.map_on
    · intro x' hx y hy hxy
      exact colIdx_inj cols x' y
        (of_decide_eq_true (List.mem_filter.mp hx).2) hxy
    · exact List.Nodup.filter _ (by decide)
  rw [hC, compApp_nodup _ _ _ hnd,
    if_pos (List.mem_map.mpr ⟨c,
      List.mem_filter.mpr ⟨hc, decide_eq_true hp⟩, rfl⟩)]

end Collisions

namespace Collisions

theorem compApp_ctypesOps_time (cols : List String)
    (hp : "CRASH_TIME" ∈ cols) (x : Cell) :
    compApp (ctypesOps cols) (colIdx "CRASH_TIME" cols) x
      = parseTimeCell x := by
  show compApp (_ ++ _ ++ _) _ _ = _
  rw [compApp_append, compApp_append]
  have huA : ∀ p ∈ (DATE_COLS.filter (fun c => c ∈ cols)).map
      (fun c => (colIdx c cols, parseDateCell)),
      p.1 ≠ colIdx "CRASH_TIME" cols := by
    intro p hpm hpe
    rcases List.mem_map.mp hpm with ⟨c', hcf, rfl⟩
    have hm := List.mem_filter.mp hcf
    have hct : c' = "CRASH_TIME" :=
      colIdx_inj cols c' _ (of_decide_eq_true hm.2) hpe
    subst hct
    have := hm.1
    revert this
    decide
  have huC : ∀ p ∈ (INJURY_COLS.filter (fun c => c ∈ cols)).map
      (fun c => (colIdx c cols, toInt64Cell)),
      p.1 ≠ colIdx "CRASH_TIME" cols := by
    intro p hpm hpe
    rcases List.mem_map.mp hpm with ⟨c', hcf, rfl⟩
    have hm := List.mem_filter.mp hcf
    have hct : c' = "CRASH_TIME" :=
      colIdx_inj cols c' _ (of_decide_eq_true hm.2) hpe
    subst hct
    have := hm.1
    revert this
    decide
  rw [compApp_untouched _ _ huA]
  have hB : (TIME_COLS.filter (fun c => c ∈ cols)).map
      (fun c => (colIdx c cols, parseTimeCell))
      = ((TIME_COLS.filter (fun c => c ∈ cols)).map
          (fun c => colIdx c cols)).map (fun i => (i, parseTimeCell)) := by
    rw [List.map_map]
    rfl
  have hnd : ((TIME_COLS.filter (fun c => c ∈ cols)).map
      (fun c => colIdx c cols)).Nodup := by
    apply List.Nodup.map_on
    · intro x' hx y hy hxy
      exact colIdx_inj cols x' y
        (of_decide_eq_true (List.mem_filter.mp hx).2) hxy
    · exact List.Nodup.filter _ (by decide)
  rw [hB, compApp_nodup _ _ _ hnd,
    if_pos (List.mem_map.mpr ⟨"CRASH_TIME",
      List.mem_filter.mpr ⟨by decide, decide_eq_true hp⟩, rfl⟩),
    compApp_untouched _ _ huC]

theorem temporal_untouched_injury (cols : List String) (c : String)
    (hc : c ∈ INJURY_COLS) (r : List Cell) :
    getAt (applyOps ((TIME_COLS.filter (fun c => c ∈ cols)).map
        (fun c => (colIdx c cols, parseTimeCell)))
      (applyOps ((DATE_COLS.filter (fun c => c ∈ cols)).map
        (fun c => (colIdx c cols, parseDateCell))) r))
      (colIdx c cols) = getAt r (colIdx c cols) := by
  have hcd : c ≠ "CRASH_DATE" := by fin_cases hc <;> decide
  have hct : c ≠ "CRASH_TIME" := by fin_cases hc <;> decide
  rw [getAt_applyOps, getAt_applyOps]
  rw [compApp_untouched _ _ (by
    intro p hpm hpe
    rcases List.mem_map.mp hpm with ⟨c', hcf, rfl⟩
    have hm := List.mem_filter.mp hcf
    have : c' = c := colIdx_inj cols c' c (of_decide_eq_true hm.2) hpe
    subst this
    have hd := hm.1
    rw [show TIME_COLS = ["CRASH_TIME"] from rfl] at hd
    exact hct (List.mem_singleton.mp hd))]
  rw [compApp_untouched _ _ (by
    intro p hpm hpe
    rcases List.mem_map.mp hpm with ⟨c', hcf, rfl⟩
    have hm := List.mem_filter.mp hcf
    have : c' = c := colIdx_inj cols c' c (of_decide_eq_true hm.2) hpe
    subst this
    have hd := hm.1
    rw [show DATE_COLS = ["CRASH_DATE"] from rfl] at hd
    exact hcd (List.mem_singleton.mp hd))]

theorem coerceInjuries_isOk (L : List String) (s : Table)
    (hnd : (L.map (fun c => colIdx c s.cols)).Nodup)
    (hok : ∀ c ∈ L, ∀ r ∈ s.rows,
      isFracCell (toNumCell (cellOf s.cols r c)) = false) :
    ∃ t', coerceInjuries L s = Except.ok t' := by
  induction L generalizing s with
  | nil => exact ⟨s, rfl⟩
  | cons c L ih =>
    have hany : (s.rows.map (fun r =>
        toNumCell (cellOf s.cols r c))).any isFracCell = false := by
      apply List.any_eq_false.mpr
      intro x hx
      rcases List.mem_map.mp hx with ⟨r, hr, rfl⟩
      rw [hok c (List.mem_cons_self c L) r hr]
      simp
    have hstep : coerceInjuries (c :: L) s
        = coerceInjuries L (mapCol c toInt64Cell s) := by
      simp only [coerceInjuries, coerceInjCol, hany, Bool.false_eq_true,
        if_false]
    rw [hstep]
    apply ih (mapCol c toInt64Cell s)
    · exact (List.nodup_cons.mp hnd).2
    · intro c' hc' r' hr'
      rcases List.mem_map.mp hr' with ⟨r, hr, rfl⟩
      have hne : colIdx c s.cols ≠ colIdx c' s.cols := by
        intro h
        apply (List.nodup_cons.mp hnd).1
        show colIdx c s.cols ∈ List.map (fun c => colIdx c s.cols) L
        rw [h]
        exact List.mem_map.mpr ⟨c', hc', rfl⟩
      show isFracCell (toNumCell (getAt _ (colIdx c' (mapCol c toInt64Cell s).cols))) = false
      rw [cols_mapCol, getAt_setAt_ne _ _ _ _ hne]
      exact hok c' (List.mem_cons_of_mem c hc') r hr

theorem correct_types_isOk (t : Table)
    (hfrac : ∀ c ∈ INJURY_COLS, c ∈ t.cols →
      ∀ r ∈ t.rows, isFracCell (toNumCell (cellOf t.cols r c)) = false) :
    ∃ t2, correct_types t = Except.ok t2 := by
  simp only [correct_types, ensure_columns_exist, foldl_mapCol_eq]
  apply coerceInjuries_isOk
  · apply List.Nodup.map_on
    · intro x' hx y hy hxy
      exact colIdx_inj t.cols x' y
        (of_decide_eq_true (List.mem_filter.mp hx).2) hxy
    · exact List.Nodup.filter _ (by decide)
  · intro c hcf r' hr'
    have hm := List.mem_filter.mp hcf
    simp only [List.map_map, List.mem_map] at hr'
    rcases hr' with ⟨r, hr, rfl⟩
    show isFracCell (toNumCell (getAt _ _)) = false
    simp only [Function.comp]
    rw [temporal_untouched_injury t.cols c hm.1 r]
    exact hfrac c hm.1 (of_decide_eq_true hm.2) r hr

/-- C4 (amended): TypeCoercer never raises while parsing temporal columns —
failed parses become null — and, provided no injury-metric cell coerces to a
fractional number (unparsable and null cells are fine), it completes without
error and every injury cell of the output is null or an integer.  As stated
the claim is false: on a fractional injury value the nullable-integer cast
raises. -/
theorem claim_C4_amended_coercion (t : Table)
    (hfrac : ∀ c ∈ INJURY_COLS, c ∈ t.cols →
      ∀ r ∈ t.rows, isFracCell (toNumCell (cellOf t.cols r c)) = false) :
    ∃ t2, correct_types t = Except.ok t2 ∧ t2.cols = t.cols ∧
      ∀ r ∈ t2.rows,
        ("CRASH_DATE" ∈ t.cols →
          (cellOf t.cols r "CRASH_DATE" = Cell.null ∨
           ∃ y m d, cellOf t.cols r "CRASH_DATE" = Cell.date y m d)) ∧
        ("CRASH_TIME" ∈ t.cols →
          (cellOf t.cols r "CRASH_TIME" = Cell.null ∨
           ∃ h m, cellOf t.cols r "CRASH_TIME" = Cell.time h m)) ∧
        (∀ c ∈ INJURY_COLS, c ∈ t.cols →
          (cellOf t.cols r c = Cell.null ∨
           ∃ n, cellOf t.cols r c = Cell.int n)) := by
  obtain ⟨t2, h2⟩ := correct_types_isOk t hfrac
  refine ⟨t2, h2, ?_, ?_⟩
  · rw [correct_types_ok _ _ h2]
  · rw [correct_types_ok _ _ h2]
    intro r' hr'
    rcases List.mem_map.mp hr' with ⟨r, _, rfl⟩
    refine ⟨?_, ?_, ?_⟩
    · intro hd
      simp only [cellOf]
      rw [getAt_applyOps, compApp_ctypesOps_date t.cols hd]
      exact parseDateCell_shape _
    · intro ht
      simp only [cellOf]
      rw [getAt_applyOps, compApp_ctypesOps_time t.cols ht]
      exact parseTimeCell_shape _
    · intro c hc hp
      simp only [cellOf]
      rw [getAt_applyOps, compApp_ctypesOps_injury t.cols c hc hp]
      exact toInt64Cell_shape _

/-- Counterexample to C4 as stated: on a table whose injury cell holds the
float 2.5, TypeCoercer raises (the nullable-integer cast refuses the
non-integral value) instead of completing. -/
theorem claim_C4_counterexample :
    correct_types fracInjT = Except.error
      ("cannot safely cast non-equivalent float64 to int64: "
        ++ "NUMBER OF PERSONS INJURED") := by decide

/-- Witness for the amended C4 on the scenario table: coercion succeeds and
the date and injury cells come out as dates/integers or null. -/
theorem claim_C4_amended_coercion_witness :
    ∃ t2, correct_types scT = Except.ok t2 ∧ t2.cols = scT.cols ∧
      ∀ r ∈ t2.rows,
        ("CRASH_DATE" ∈ scT.cols →
          (cellOf scT.cols r "CRASH_DATE" = Cell.null ∨
           ∃ y m d, cellOf scT.cols r "CRASH_DATE" = Cell.date y m d)) ∧
        ("CRASH_TIME" ∈ scT.cols →
          (cellOf scT.cols r "CRASH_TIME" = Cell.null ∨
           ∃ h m, cellOf scT.cols r "CRASH_TIME" = Cell.time h m)) ∧
        (∀ c ∈ INJURY_COLS, c ∈ scT.cols →
          (cellOf scT.cols r c = Cell.null ∨
           ∃ n, cellOf scT.cols r c = Cell.int n)) :=
  claim_C4_amended_coercion scT (by decide)

end Collisions

namespace Collisions

theorem mem_insKey {α : Type} [DecidableEq α] (ltB : α → α → Bool)
    (x a : α) (l : List α) : a ∈ insKey ltB x l ↔ (a = x ∨ a ∈ l) := by
  induction l with
  | nil => simp [insKey]
  | cons y ys ih =>
    by_cases h1 : ltB x y
    · simp [insKey, h1, List.mem_cons]
    · by_cases h2 : x = y
      · subst h2
        simp [insKey, h1, List.mem_cons]
      · simp only [insKey, if_neg h1, if_neg h2, List.mem_cons, ih]
        tauto

theorem mem_sortedKeys {α : Type} [DecidableEq α] (ltB : α → α → Bool)
    (l : List α) (a : α) : a ∈ sortedKeys ltB l ↔ a ∈ l := by
  have key : ∀ (l acc : List α),
      (a ∈ l.foldl (fun acc x => insKey ltB x acc) acc ↔ a ∈ acc ∨ a ∈ l) := by
    intro l
    induction l with
    | nil => simp
    | cons x xs ih =>
      intro acc
      show a ∈ xs.foldl _ (insKey ltB x acc) ↔ _
      rw [ih (insKey ltB x acc), mem_insKey]
      simp [List.mem_cons]
      tauto
  show a ∈ l.foldl _ [] ↔ _
  rw [key l []]
  simp

theorem assq_map_mem {α β : Type} [DecidableEq α] (ys : List α) (f : α → β)
    (y : α) (hy : y ∈ ys) :
    assq (ys.map (fun a => (a, f a))) y = some (f y) := by
  induction ys with
  | nil => cases hy
  | cons y0 ys ih =>
    by_cases h : y0 = y
    · subst h
      simp [assq]
    · have : y ∈ ys := by
        rcases List.mem_cons.mp hy with h' | h'
        · exact absurd h'.symm h
        · exact h'
      simp only [List.map_cons, assq, if_neg h]
      exact ih this

theorem pivotLookup_eq (s : Table) (y : ℤ) (b : String)
    (hex : ∃ r ∈ s.rows, yearKey s.cols r = some y ∧
      boroughKey s.cols r = some b) :
    pivotLookup s y b = some (some (pivotRowCount s y b)) := by
  rcases hex with ⟨r, hr, hry, hrb⟩
  have hqual : r ∈ s.rows.filter (fun r =>
      (yearKey s.cols r).isSome && (boroughKey s.cols r).isSome) := by
    apply List.mem_filter.mpr
    refine ⟨hr, ?_⟩
    rw [hry, hrb]
    rfl
  have hymem : y ∈ sortedKeys intLtB
      ((s.rows.filter (fun r =>
        (yearKey s.cols r).isSome && (boroughKey s.cols r).isSome)).filterMap
        (yearKey s.cols)) := by
    rw [mem_sortedKeys]
    exact List.mem_filterMap.mpr ⟨r, hqual, hry⟩
  have hbmem : b ∈ sortedKeys strLtB
      ((s.rows.filter (fun r =>
        (yearKey s.cols r).isSome && (boroughKey s.cols r).isSome)).filterMap
        (boroughKey s.cols)) := by
    rw [mem_sortedKeys]
    exact List.mem_filterMap.mpr ⟨r, hqual, hrb⟩
  unfold pivotLookup pivotTable
  rw [assq_map_mem _ _ _ hymem]
  show assq _ b = _
  rw [assq_map_mem _ _ _ hbmem]
  have hg : r ∈ (s.rows.filter (fun r =>
      (yearKey s.cols r).isSome && (boroughKey s.cols r).isSome)).filter
      (fun r => yearKey s.cols r == some y && (boroughKey s.cols r == some b)) := by
    apply List.mem_filter.mpr
    refine ⟨hqual, ?_⟩
    rw [hry, hrb]
    simp
  have hne : ((s.rows.filter (fun r =>
      (yearKey s.cols r).isSome && (boroughKey s.cols r).isSome)).filter
      (fun r => yearKey s.cols r == some y && (boroughKey s.cols r == some b)))
      ≠ [] := by
    intro h
    rw [h] at hg
    cases hg
  rw [if_neg (by
    intro h
    exact hne (List.isEmpty_iff.mp h))]
  apply congrArg
  apply congrArg
  rw [List.filter_filter, List.filter_filter]
  unfold pivotRowCount
  apply congrArg
  apply List.filter_congr
  intro r' _
  by_cases h1 : yearKey s.cols r' = some y
  · by_cases h2 : boroughKey s.cols r' = some b
    · simp [h1, h2]
    · have hb2 : (boroughKey s.cols r' == some b) = false :=
        beq_eq_false_iff_ne.mpr h2
      simp [hb2]
  · have hb1 : (yearKey s.cols r' == some y) = false :=
      beq_eq_false_iff_ne.mpr h1
    simp [hb1]

end Collisions

namespace Collisions

/-- C2 (amended): when the identifier, year and borough columns are all
present, the Aggregator's pivot artifact is the year × borough matrix in
which cell (y, b) — for any (y, b) actually having rows — equals the number
of rows with year y, borough b and a non-null identifier, counted with
multiplicity (pandas `aggfunc="count"` counts non-null values, not distinct
ones). -/
theorem claim_C2_amended_pivot (t : Table)
    (hy : "YEAR" ∈ (addYear t).cols) (hb : "BOROUGH" ∈ (addYear t).cols)
    (hk : UNIQUE_KEY_COL ∈ (addYear t).cols) :
    (filter_and_group t).1.pivot = some (pivotTable (addYear t)) ∧
    ∀ y b, (∃ r ∈ (addYear t).rows, yearKey (addYear t).cols r = some y ∧
        boroughKey (addYear t).cols r = some b) →
      pivotLookup (addYear t) y b
        = some (some (pivotRowCount (addYear t) y b)) := by
  constructor
  · have hfield : (filter_and_group t).1.pivot
        = (if "YEAR" ∈ (addYear t).cols ∧ "BOROUGH" ∈ (addYear t).cols
              ∧ UNIQUE_KEY_COL ∈ (addYear t).cols
           then some (pivotTable (addYear t)) else none) := rfl
    rw [hfield, if_pos ⟨hy, hb, hk⟩]
  · intro y b hex
    exact pivotLookup_eq (addYear t) y b hex

/-- Counterexample to C2 as stated: on a legal Aggregator input whose
identifier value 7 occurs in two rows of year 2021 and borough "Queens"
(identifier uniqueness is documented but never enforced), the pivot cell is
2 — the row count — while the number of distinct identifier values in that
group is 1. -/
theorem claim_C2_counterexample :
    pivotLookup (addYear dupKeyT) 2021 "Queens" = some (some 2) ∧
    specPivotDistinct (addYear dupKeyT) 2021 "Queens" = 1 ∧
    (filter_and_group dupKeyT).1.pivot
      = some [(2021, [("Queens", some 2)])] := by
  refine ⟨by decide, by decide, by decide⟩

/-- Witness for the amended C2 on the duplicate-key table: the pivot
artifact is produced and its (2021, "Queens") cell equals the non-null-key
row count. -/
theorem claim_C2_amended_pivot_witness :
    (filter_and_group dupKeyT).1.pivot = some (pivotTable (addYear dupKeyT)) ∧
    pivotLookup (addYear dupKeyT) 2021 "Queens"
      = some (some (pivotRowCount (addYear dupKeyT) 2021 "Queens")) := by
  have h := claim_C2_amended_pivot dupKeyT (by decide) (by decide) (by decide)
  exact ⟨h.1, h.2 2021 "Queens"
    ⟨[Cell.int 7, Cell.str "Queens", Cell.int 2021],
      by decide, by decide, by decide⟩⟩

end Collisions

namespace Collisions

theorem mem_insCnt {α : Type} (x b : α × ℕ) (l : List (α × ℕ)) :
    b ∈ insCnt x l ↔ (b = x ∨ b ∈ l) := by
  induction l with
  | nil => simp [insCnt]
  | cons y ys ih =>
    by_cases h1 : x.2 < y.2
    · simp [insCnt, h1, List.mem_cons]
    · simp only [insCnt, if_neg h1, List.mem_cons, ih]
      tauto

theorem perm_insCnt {α : Type} (x : α × ℕ) (l : List (α × ℕ)) :
    (insCnt x l).Perm (x :: l) := by
  induction l with
  | nil => exact List.Perm.refl _
  | cons y ys ih =>
    by_cases h1 : x.2 < y.2
    · rw [insCnt, if_pos h1]
    · rw [insCnt, if_neg h1]
      exact (ih.cons y).trans (List.Perm.swap x y ys)

theorem perm_sortCntAsc {α : Type} (l : List (α × ℕ)) :
    (sortCntAsc l).Perm l := by
  have key : ∀ (xs acc : List (α × ℕ)),
      (xs.foldl (fun acc x => insCnt x acc) acc).Perm (acc ++ xs) := by
    intro xs
    induction xs with
    | nil => intro acc; simp
    | cons x xs ih =>
      intro acc
      show (xs.foldl _ (insCnt x acc)).Perm _
      refine (ih (insCnt x acc)).trans ?_
      refine (((perm_insCnt x acc).append_right xs).trans ?_)
      exact List.perm_middle.symm
  have := key l []
  simpa using this

theorem pairwise_insCnt {α : Type} (x : α × ℕ) (l : List (α × ℕ))
    (h : l.Pairwise (fun p q => p.2 ≤ q.2)) :
    (insCnt x l).Pairwise (fun p q => p.2 ≤ q.2) := by
  induction l with
  | nil => simp [insCnt]
  | cons y ys ih =>
    rcases List.pairwise_cons.mp h with ⟨hy, hys⟩
    by_cases h1 : x.2 < y.2
    · rw [insCnt, if_pos h1]
      apply List.pairwise_cons.mpr
      refine ⟨?_, h⟩
      intro b hb
      rcases List.mem_cons.mp hb with rfl | hb'
      · exact Nat.le_of_lt h1
      · exact Nat.le_trans (Nat.le_of_lt h1) (hy b hb')
    · rw [insCnt, if_neg h1]
      apply List.pairwise_cons.mpr
      refine ⟨?_, ih hys⟩
      intro b hb
      rcases (mem_insCnt x b ys).mp hb with rfl | hb'
      · exact Nat.le_of_not_lt h1
      · exact hy b hb'

theorem pairwise_sortCntAsc {α : Type} (l : List (α × ℕ)) :
    (sortCntAsc l).Pairwise (fun p q => p.2 ≤ q.2) := by
  have key : ∀ (xs acc : List (α × ℕ)),
      acc.Pairwise (fun p q => p.2 ≤ q.2) →
      (xs.foldl (fun acc x => insCnt x acc) acc).Pairwise
        (fun p q => p.2 ≤ q.2) := by
    intro xs
    induction xs with
    | nil => intro acc h; exact h
    | cons x xs ih =>
      intro acc h
      exact ih (insCnt x acc) (pairwise_insCnt x acc h)
  exact key l [] (by simp)

theorem le_maxCnt {α : Type} (l : List (α × ℕ)) (p : α × ℕ) (hp : p ∈ l) :
    p.2 ≤ maxCnt l := by
  induction l with
  | nil => cases hp
  | cons x xs ih =>
    show p.2 ≤ max x.2 (maxCnt xs)
    rcases List.mem_cons.mp hp with rfl | hp'
    · exact Nat.le_max_left _ _
    · exact Nat.le_trans (ih hp') (Nat.le_max_right _ _)

theorem maxCnt_attained {α : Type} (l : List (α × ℕ)) (hne : l ≠ []) :
    ∃ p ∈ l, p.2 = maxCnt l := by
  induction l with
  | nil => exact absurd rfl hne
  | cons x xs ih =>
    by_cases hxs : xs = []
    · subst hxs
      exact ⟨x, List.mem_cons_self x [], by
        show x.2 = max x.2 (maxCnt [])
        show x.2 = max x.2 0
        omega⟩
    · rcases ih hxs with ⟨p, hp, hpm⟩
      by_cases hle : maxCnt xs ≤ x.2
      · refine ⟨x, List.mem_cons_self x xs, ?_⟩
        show x.2 = max x.2 (maxCnt xs)
        omega
      · refine ⟨p, List.mem_cons_of_mem x hp, ?_⟩
        show p.2 = max x.2 (maxCnt xs)
        omega

theorem pairwise_le_getLast {α : Type} (l : List (α × ℕ))
    (h : l.Pairwise (fun p q => p.2 ≤ q.2)) (hne : l ≠ []) :
    ∀ p ∈ l, p.2 ≤ (l.getLast hne).2 := by
  induction l with
  | nil => exact absurd rfl hne
  | cons x xs ih =>
    intro p hp
    rcases List.pairwise_cons.mp h with ⟨hx, hxs⟩
    by_cases hxse : xs = []
    · subst hxse
      rcases List.mem_cons.mp hp with rfl | hp'
      · exact Nat.le_refl _
      · cases hp'
    · rw [List.getLast_cons hxse]
      rcases List.mem_cons.mp hp with rfl | hp'
      · exact hx _ (List.getLast_mem hxse)
      · exact ih hxs hxse p hp'

theorem sortCntDesc_head {α : Type} (l : List (α × ℕ)) (hne : l ≠ []) :
    ∃ q, q ∈ l ∧ q.2 = maxCnt l ∧ (sortCntDesc l).head? = some q := by
  have hperm := perm_sortCntAsc l
  have hne' : sortCntAsc l ≠ [] := by
    intro h
    exact hne (List.Perm.eq_nil (h ▸ hperm.symm))
  refine ⟨(sortCntAsc l).getLast hne', hperm.mem_iff.mp
    (List.getLast_mem hne'), ?_, ?_⟩
  · apply Nat.le_antisymm
    · exact le_maxCnt l _ (hperm.mem_iff.mp (List.getLast_mem hne'))
    · rcases maxCnt_attained l hne with ⟨p, hp, hpm⟩
      rw [← hpm]
      exact pairwise_le_getLast (sortCntAsc l) (pairwise_sortCntAsc l) hne'
        p (hperm.mem_iff.mpr hp)
  · show ((sortCntAsc l).reverse).head? = _
    rw [List.head?_reverse]
    exact List.getLast?_eq_getLast _ hne'

theorem idxmaxKey_eq_of_unique {α : Type} (l : List (α × ℕ)) (_hne : l ≠ [])
    (huniq : ∀ p ∈ l, ∀ q ∈ l, p.2 = maxCnt l → q.2 = maxCnt l → p = q)
    (q : α × ℕ) (hq : q ∈ l) (hqm : q.2 = maxCnt l) :
    idxmaxKey l = some q.1 := by
  have hsome : (l.find? (fun p => p.2 == maxCnt l)).isSome :=
    List.find?_isSome.mpr ⟨q, hq, beq_iff_eq.mpr hqm⟩
  rcases Option.isSome_iff_exists.mp hsome with ⟨a, ha⟩
  have ham : a.2 = maxCnt l := by
    have hpa := List.find?_some ha
    exact beq_iff_eq.mp hpa
  have haq : a = q := huniq a (List.mem_of_find?_eq_some ha) q hq ham hqm
  show (l.find? (fun p => p.2 == maxCnt l)).map Prod.fst = _
  rw [ha, haq]
  rfl

end Collisions

namespace Collisions

theorem mem_addYear_cols (t : Table) (c : String) (hc : c ∈ t.cols) :
    c ∈ (addYear t).cols := by
  by_cases hd : "CRASH_DATE" ∈ t.cols
  · rw [addYear, if_pos hd]
    exact (mem_setColFrom_cols t "YEAR" "CRASH_DATE" yearOfCell c).2 (Or.inl hc)
  · rw [addYear, if_neg hd]
    exact hc

theorem boroughKeys_addYear (t : Table) (hb : "BOROUGH" ∈ t.cols) :
    (addYear t).rows.filterMap (boroughKey (addYear t).cols)
      = t.rows.filterMap (boroughKey t.cols) := by
  by_cases hd : "CRASH_DATE" ∈ t.cols
  · rw [addYear, if_pos hd]
    rw [rows_setColFrom, List.filterMap_map]
    apply List.filterMap_congr
    intro r _
    simp only [Function.comp]
    unfold boroughKey
    rw [cellOf_setColFrom_row t "YEAR" "CRASH_DATE" "BOROUGH" yearOfCell hb
      (by decide)]
  · rw [addYear, if_neg hd]

/-- C5 (amended): when the borough grouping is non-empty and its maximum
count is attained by exactly one borough, the borough StatisticsReporter
reports via idxmax is that unique maximizer — and it is exactly the first
entry of Aggregator's descending group-by-borough ranking.  As stated the
claim is false for ties: idxmax picks the first borough in group order while
pandas' descending sort (reversed stable ascending order) puts the last
tied entry first. -/
theorem claim_C5_amended_max_borough (t : Table) (hb : "BOROUGH" ∈ t.cols)
    (hne : groupSizes strLtB (t.rows.filterMap (boroughKey t.cols)) ≠ [])
    (huniq : ∀ p ∈ groupSizes strLtB (t.rows.filterMap (boroughKey t.cols)),
      ∀ q ∈ groupSizes strLtB (t.rows.filterMap (boroughKey t.cols)),
      p.2 = maxCnt (groupSizes strLtB (t.rows.filterMap (boroughKey t.cols))) →
      q.2 = maxCnt (groupSizes strLtB (t.rows.filterMap (boroughKey t.cols))) →
      p = q) :
    ∃ q, q ∈ groupSizes strLtB (t.rows.filterMap (boroughKey t.cols)) ∧
      q.2 = maxCnt (groupSizes strLtB (t.rows.filterMap (boroughKey t.cols))) ∧
      (statistical_summaries t).mostCrashes = some (some q.1) ∧
      (filter_and_group t).1.boroughCounts
        = some (sortCntDesc
            (groupSizes strLtB (t.rows.filterMap (boroughKey t.cols)))) ∧
      (sortCntDesc
          (groupSizes strLtB (t.rows.filterMap (boroughKey t.cols)))).head?
        = some q := by
  rcases sortCntDesc_head
    (groupSizes strLtB (t.rows.filterMap (boroughKey t.cols))) hne with
    ⟨q, hqmem, hqmax, hqhead⟩
  refine ⟨q, hqmem, hqmax, ?_, ?_, hqhead⟩
  · have hfield : (statistical_summaries t).mostCrashes
        = (if "BOROUGH" ∈ t.cols then
            some (idxmaxKey
              (groupSizes strLtB (t.rows.filterMap (boroughKey t.cols))))
          else none) := rfl
    rw [hfield, if_pos hb]
    rw [idxmaxKey_eq_of_unique _ hne huniq q hqmem hqmax]
  · have hfield : (filter_and_group t).1.boroughCounts
        = (if "BOROUGH" ∈ (addYear t).cols then
            some (sortCntDesc (groupSizes strLtB
              ((addYear t).rows.filterMap (boroughKey (addYear t).cols))))
          else none) := rfl
    rw [hfield, if_pos (mem_addYear_cols t "BOROUGH" hb),
      boroughKeys_addYear t hb]

/-- Counterexample to C5 as stated: with "Brooklyn" and "Queens" tied at one
row each, StatisticsReporter's idxmax reports "Brooklyn" (first in group
order) while the first entry of Aggregator's descending ranking is
("Queens", 1) — the reversed stable ascending order puts the later tied
group first. -/
theorem claim_C5_counterexample :
    (statistical_summaries tieT).mostCrashes = some (some "Brooklyn") ∧
    (filter_and_group tieT).1.boroughCounts
      = some [("Queens", 1), ("Brooklyn", 1)] ∧
    ("Queens" : String) ≠ "Brooklyn" := by
  refine ⟨by decide, by decide, by decide⟩

/-- Witness for the amended C5: with "Brooklyn" at two rows and "Queens" at
one, both the idxmax report and the head of the descending ranking are
("Brooklyn", 2). -/
theorem claim_C5_amended_max_borough_witness :
    ∃ q, q ∈ groupSizes strLtB
        (uniqueMaxT.rows.filterMap (boroughKey uniqueMaxT.cols)) ∧
      q.2 = maxCnt (groupSizes strLtB
        (uniqueMaxT.rows.filterMap (boroughKey uniqueMaxT.cols))) ∧
      (statistical_summaries uniqueMaxT).mostCrashes = some (some q.1) ∧
      (filter_and_group uniqueMaxT).1.boroughCounts
        = some (sortCntDesc (groupSizes strLtB
            (uniqueMaxT.rows.filterMap (boroughKey uniqueMaxT.cols)))) ∧
      (sortCntDesc (groupSizes strLtB
          (uniqueMaxT.rows.filterMap (boroughKey uniqueMaxT.cols)))).head?
        = some q :=
  claim_C5_amended_max_borough uniqueMaxT (by decide) (by decide) (by decide)

end Collisions

namespace Collisions

theorem dropWhile_head_false {α : Type} (p : α → Bool) (l : List α) (a : α)
    (h : (l.dropWhile p).head? = some a) : p a = false := by
  induction l with
  | nil => cases h
  | cons x xs ih =>
    by_cases hx : p x
    · rw [List.dropWhile_cons_of_pos hx] at h
      exact ih h
    · rw [List.dropWhile_cons_of_neg hx] at h
      cases h
      exact Bool.eq_false_iff.mpr hx

theorem dropWhile_of_head_false {α : Type} (p : α → Bool) (l : List α)
    (h : ∀ a, l.head? = some a → p a = false) : l.dropWhile p = l := by
  cases l with
  | nil => rfl
  | cons x xs =>
    have := h x rfl
    rw [List.dropWhile_cons_of_neg (by rw [this]; exact Bool.false_ne_true)]

theorem dropWhile_getLast? {α : Type} (p : α → Bool) (l : List α)
    (h : l.dropWhile p ≠ []) : (l.dropWhile p).getLast? = l.getLast? := by
  induction l with
  | nil => rfl
  | cons x xs ih =>
    by_cases hx : p x
    · rw [List.dropWhile_cons_of_pos hx] at h ⊢
      rw [ih h]
      have hxs : xs ≠ [] := by
        intro hn
        rw [hn] at h
        exact h rfl
      rw [List.getLast?_eq_getLast _ hxs,
        List.getLast?_eq_getLast _ (List.cons_ne_nil x xs),
        List.getLast_cons hxs]
    · rw [List.dropWhile_cons_of_neg hx]

theorem stripL_of_okEnds (m : List Char) (h : okEnds m) : stripL m = m := by
  unfold stripL
  rw [dropWhile_of_head_false wsB m h.1]
  rw [dropWhile_of_head_false wsB m.reverse (by
    intro a ha
    rw [List.head?_reverse] at ha
    exact h.2 a ha)]
  exact List.reverse_reverse m

theorem okEnds_stripL (l : List Char) : okEnds (stripL l) := by
  constructor
  · intro c hc
    unfold stripL at hc
    by_cases hB : (l.dropWhile wsB).reverse.dropWhile wsB = []
    · rw [hB] at hc
      cases hc
    · rw [List.head?_reverse, dropWhile_getLast? wsB _ hB,
        List.getLast?_reverse] at hc
      exact dropWhile_head_false wsB l c hc
  · intro c hc
    unfold stripL at hc
    rw [List.getLast?_reverse] at hc
    exact dropWhile_head_false wsB _ c hc

end Collisions

namespace Collisions

theorem lookupC_some_mem (c : Char) (l : List (Char × Char)) (u : Char)
    (h : lookupC c l = some u) : (c, u) ∈ l := by
  induction l with
  | nil => cases h
  | cons p ps ih =>
    by_cases hp : p.1 = c
    · rw [lookupC, if_pos hp] at h
      cases h
      have hpe : (c, p.2) = p := by
        rw [← hp]
      rw [hpe]
      exact List.mem_cons_self p ps
    · rw [lookupC, if_neg hp] at h
      exact List.mem_cons_of_mem p (ih h)

theorem charUp_idem (c : Char) : charUp (charUp c) = charUp c := by
  cases h : lookupC c upPairs with
  | none => simp [charUp, h]
  | some u =>
    have hmem := lookupC_some_mem c upPairs u h
    have hnone : ∀ pr ∈ upPairs, lookupC pr.2 upPairs = none := by decide
    simp [charUp, h, hnone (c, u) hmem]

theorem charDown_idem (c : Char) : charDown (charDown c) = charDown c := by
  cases h : lookupC c downPairs with
  | none => simp [charDown, h]
  | some u =>
    have hmem := lookupC_some_mem c downPairs u h
    have hnone : ∀ pr ∈ downPairs, lookupC pr.2 downPairs = none := by decide
    simp [charDown, h, hnone (c, u) hmem]

theorem isAlphaB_charUp (c : Char) (ha : isAlphaB c = true) :
    isAlphaB (charUp c) = true := by
  cases h : lookupC c upPairs with
  | none => simpa [charUp, h] using ha
  | some u =>
    have hmem := lookupC_some_mem c upPairs u h
    have hfact : ∀ pr ∈ upPairs, isAlphaB pr.2 = true := by decide
    simp [charUp, h, hfact (c, u) hmem]

theorem isAlphaB_charDown (c : Char) (ha : isAlphaB c = true) :
    isAlphaB (charDown c) = true := by
  cases h : lookupC c downPairs with
  | none => simpa [charDown, h] using ha
  | some u =>
    have hmem := lookupC_some_mem c downPairs u h
    have hfact : ∀ pr ∈ downPairs, isAlphaB pr.2 = true := by decide
    simp [charDown, h, hfact (c, u) hmem]

theorem wsB_of_isAlphaB (c : Char) (ha : isAlphaB c = true) :
    wsB c = false := by
  rcases Bool.or_eq_true_iff.mp ha with h | h
  · rcases Option.isSome_iff_exists.mp h with ⟨u, hu⟩
    have hmem := lookupC_some_mem c upPairs u hu
    have hfact : ∀ pr ∈ upPairs, wsB pr.1 = false := by decide
    exact hfact (c, u) hmem
  · rcases Option.isSome_iff_exists.mp h with ⟨u, hu⟩
    have hmem := lookupC_some_mem c downPairs u hu
    have hfact : ∀ pr ∈ downPairs, wsB pr.1 = false := by decide
    exact hfact (c, u) hmem

theorem wsB_charUp (c : Char) (ha : isAlphaB c = true) :
    wsB (charUp c) = false := by
  cases h : lookupC c upPairs with
  | none =>
    simpa [charUp, h] using wsB_of_isAlphaB c ha
  | some u =>
    have hmem := lookupC_some_mem c upPairs u h
    have hfact : ∀ pr ∈ upPairs, wsB pr.2 = false := by decide
    simp [charUp, h, hfact (c, u) hmem]

theorem wsB_charDown (c : Char) (ha : isAlphaB c = true) :
    wsB (charDown c) = false := by
  cases h : lookupC c downPairs with
  | none =>
    simpa [charDown, h] using wsB_of_isAlphaB c ha
  | some u =>
    have hmem := lookupC_some_mem c downPairs u h
    have hfact : ∀ pr ∈ downPairs, wsB pr.2 = false := by decide
    simp [charDown, h, hfact (c, u) hmem]

theorem wsB_tStep (p : Bool) (c : Char) : wsB (tStep p c) = wsB c := by
  by_cases ha : isAlphaB c
  · unfold tStep
    rw [if_pos ha]
    cases p with
    | true =>
      rw [if_pos rfl, wsB_charDown c ha, wsB_of_isAlphaB c ha]
    | false =>
      rw [if_neg Bool.false_ne_true, wsB_charUp c ha, wsB_of_isAlphaB c ha]
  · unfold tStep
    rw [if_neg ha]

theorem isAlphaB_tStep (p : Bool) (c : Char) :
    isAlphaB (tStep p c) = isAlphaB c := by
  by_cases ha : isAlphaB c
  · unfold tStep
    rw [if_pos ha]
    cases p with
    | true => rw [if_pos rfl, isAlphaB_charDown c ha, ha]
    | false => rw [if_neg Bool.false_ne_true, isAlphaB_charUp c ha, ha]
  · unfold tStep
    rw [if_neg ha]

theorem tStep_idem (p : Bool) (c : Char) :
    tStep p (tStep p c) = tStep p c := by
  by_cases ha : isAlphaB c
  · have hv : tStep p c = if p then charDown c else charUp c := by
      unfold tStep
      rw [if_pos ha]
    rw [hv]
    cases p with
    | true =>
      rw [if_pos rfl]
      unfold tStep
      rw [if_pos (isAlphaB_charDown c ha), if_pos rfl, charDown_idem]
    | false =>
      rw [if_neg Bool.false_ne_true]
      unfold tStep
      rw [if_pos (isAlphaB_charUp c ha), if_neg Bool.false_ne_true,
        charUp_idem]
  · have hv : tStep p c = c := by
      unfold tStep
      rw [if_neg ha]
    rw [hv, hv]

end Collisions

namespace Collisions

theorem titleAux_map_wsB (p : Bool) (l : List Char) :
    (titleAux p l).map wsB = l.map wsB := by
  induction l generalizing p with
  | nil => rfl
  | cons c cs ih =>
    simp only [titleAux, List.map_cons]
    rw [wsB_tStep, ih]

theorem titleAux_idem (p : Bool) (l : List Char) :
    titleAux p (titleAux p l) = titleAux p l := by
  induction l generalizing p with
  | nil => rfl
  | cons c cs ih =>
    simp only [titleAux]
    rw [tStep_idem, isAlphaB_tStep]
    rw [ih]

theorem getLast?_map_general {α β : Type} (f : α → β) (l : List α) :
    (l.map f).getLast? = l.getLast?.map f := by
  rw [← List.head?_reverse, ← List.head?_reverse, ← List.map_reverse,
    List.head?_map]

theorem okEnds_titleAux (p : Bool) (l : List Char) (h : okEnds l) :
    okEnds (titleAux p l) := by
  have hmap := titleAux_map_wsB p l
  constructor
  · intro c hc
    have h1 : (titleAux p l).head?.map wsB = l.head?.map wsB := by
      rw [← List.head?_map, ← List.head?_map, hmap]
    rw [hc] at h1
    cases hl : l.head? with
    | none =>
      rw [hl] at h1
      cases h1
    | some c0 =>
      rw [hl] at h1
      have : wsB c = wsB c0 := by
        injection h1
      rw [this]
      exact h.1 c0 hl
  · intro c hc
    have h1 : (titleAux p l).getLast?.map wsB = l.getLast?.map wsB := by
      rw [← getLast?_map_general, ← getLast?_map_general, hmap]
    rw [hc] at h1
    cases hl : l.getLast? with
    | none =>
      rw [hl] at h1
      cases h1
    | some c0 =>
      rw [hl] at h1
      have : wsB c = wsB c0 := by
        injection h1
      rw [this]
      exact h.2 c0 hl

theorem stripS_idem (s : String) : stripS (stripS s) = stripS s :=
  congrArg String.mk (stripL_of_okEnds (stripL s.data) (okEnds_stripL s.data))

theorem titleS_titleS (s : String) : titleS (titleS s) = titleS s :=
  congrArg String.mk (titleAux_idem false s.data)

theorem stripS_titleS_stripS (s : String) :
    stripS (titleS (stripS s)) = titleS (stripS s) :=
  congrArg String.mk (stripL_of_okEnds (titleAux false (stripL s.data))
    (okEnds_titleAux false (stripL s.data) (okEnds_stripL s.data)))

theorem stripCell_idem (x : Cell) : stripCell (stripCell x) = stripCell x := by
  cases x <;> simp [stripCell]
  case str s => exact stripS_idem s

theorem titleStripCell_idem (x : Cell) :
    titleCell (stripCell (titleCell (stripCell x)))
      = titleCell (stripCell x) := by
  cases x <;> simp [stripCell, titleCell]
  case str s =>
    rw [stripS_titleS_stripS, titleS_titleS]

theorem replaceStripCell_idem (x : Cell) :
    replaceUnspecCell (stripCell (replaceUnspecCell (stripCell x)))
      = replaceUnspecCell (stripCell x) := by
  cases x
  case null => rfl
  case num q => rfl
  case int n => rfl
  case date y m d => rfl
  case time h m => rfl
  case str s =>
    show replaceUnspecCell (stripCell
      (replaceUnspecCell (Cell.str (stripS s)))) = _
    by_cases hz : Cell.str (stripS s) = Cell.str "Unspecified"
    · have hinner : replaceUnspecCell (Cell.str (stripS s)) = Cell.null := by
        rw [replaceUnspecCell, if_pos hz]
      rw [hinner]
      show Cell.null = replaceUnspecCell (Cell.str (stripS s))
      rw [replaceUnspecCell, if_pos hz]
    · have hinner : replaceUnspecCell (Cell.str (stripS s))
          = Cell.str (stripS s) := by
        rw [replaceUnspecCell, if_neg hz]
      rw [hinner]
      show replaceUnspecCell (Cell.str (stripS (stripS s)))
        = replaceUnspecCell (Cell.str (stripS s))
      rw [stripS_idem]

end Collisions

namespace Collisions

theorem compApp_ctOps_idem (cols : List String) (n : ℕ) (x : Cell) :
    compApp (ctOps cols) n (compApp (ctOps cols) n x)
      = compApp (ctOps cols) n x := by
  have hndT : ((TEXT_COLS.filter (fun c => c ∈ cols)).map
      (fun c => colIdx c cols)).Nodup := by
    apply List.Nodup.map_on
    · intro x' hx y hy hxy
      exact colIdx_inj cols x' y
        (of_decide_eq_true (List.mem_filter.mp hx).2) hxy
    · exact List.Nodup.filter _ (by decide)
  have hndF : ((FACTOR_COLS.filter (fun c => c ∈ cols)).map
      (fun c => colIdx c cols)).Nodup := by
    apply List.Nodup.map_on
    · intro x' hx y hy hxy
      exact colIdx_inj cols x' y
        (of_decide_eq_true (List.mem_filter.mp hx).2) hxy
    · exact List.Nodup.filter _ (by decide)
  have hS : ∀ y, compApp ((TEXT_COLS.filter (fun c => c ∈ cols)).map
      (fun c => (colIdx c cols, stripCell))) n y
      = if n ∈ (TEXT_COLS.filter (fun c => c ∈ cols)).map
          (fun c => colIdx c cols) then stripCell y else y := by
    intro y
    rw [show (TEXT_COLS.filter (fun c => c ∈ cols)).map
        (fun c => (colIdx c cols, stripCell))
        = ((TEXT_COLS.filter (fun c => c ∈ cols)).map
            (fun c => colIdx c cols)).map (fun i => (i, stripCell)) from by
      rw [List.map_map]
      rfl]
    exact compApp_nodup _ _ _ hndT y
  have hR : ∀ y, compApp ((FACTOR_COLS.filter (fun c => c ∈ cols)).map
      (fun c => (colIdx c cols, replaceUnspecCell))) n y
      = if n ∈ (FACTOR_COLS.filter (fun c => c ∈ cols)).map
          (fun c => colIdx c cols) then replaceUnspecCell y else y := by
    intro y
    rw [show (FACTOR_COLS.filter (fun c => c ∈ cols)).map
        (fun c => (colIdx c cols, replaceUnspecCell))
        = ((FACTOR_COLS.filter (fun c => c ∈ cols)).map
            (fun c => colIdx c cols)).map (fun i => (i, replaceUnspecCell))
      from by
      rw [List.map_map]
      rfl]
    exact compApp_nodup _ _ _ hndF y
  have hB : ∀ y, compApp (if "BOROUGH" ∈ cols then
      [(colIdx "BOROUGH" cols, titleCell)] else []) n y
      = if ("BOROUGH" ∈ cols ∧ colIdx "BOROUGH" cols = n) then titleCell y
        else y := by
    intro y
    by_cases hb : "BOROUGH" ∈ cols
    · rw [if_pos hb]
      show (if colIdx "BOROUGH" cols = n then titleCell y else y) = _
      by_cases hn : colIdx "BOROUGH" cols = n
      · rw [if_pos hn, if_pos ⟨hb, hn⟩]
      · rw [if_neg hn, if_neg (fun h => hn h.2)]
    · rw [if_neg hb]
      show y = _
      rw [if_neg (fun h => hb h.1)]
  show compApp (_ ++ _ ++ _) n (compApp (_ ++ _ ++ _) n x)
      = compApp (_ ++ _ ++ _) n x
  simp only [compApp_append, hS, hB, hR]
  by_cases h1 : n ∈ (TEXT_COLS.filter (fun c => c ∈ cols)).map
      (fun c => colIdx c cols)
  · by_cases h2 : "BOROUGH" ∈ cols ∧ colIdx "BOROUGH" cols = n
    · by_cases h3 : n ∈ (FACTOR_COLS.filter (fun c => c ∈ cols)).map
          (fun c => colIdx c cols)
      · exfalso
        rcases List.mem_map.mp h3 with ⟨c, hcf, hcn⟩
        have hcm := List.mem_filter.mp hcf
        have : "BOROUGH" = c := colIdx_inj cols "BOROUGH" c h2.1
          (by rw [h2.2, hcn])
        have hcb := hcm.1
        rw [← this] at hcb
        revert hcb
        decide
      · simp only [if_pos h1, if_pos h2, if_neg h3]
        exact titleStripCell_idem x
    · by_cases h3 : n ∈ (FACTOR_COLS.filter (fun c => c ∈ cols)).map
          (fun c => colIdx c cols)
      · simp only [if_pos h1, if_neg h2, if_pos h3]
        exact replaceStripCell_idem x
      · simp only [if_pos h1, if_neg h2, if_neg h3]
        exact stripCell_idem x
  · have h2 : ¬("BOROUGH" ∈ cols ∧ colIdx "BOROUGH" cols = n) := by
      intro h
      apply h1
      exact List.mem_map.mpr ⟨"BOROUGH",
        List.mem_filter.mpr ⟨by decide, decide_eq_true h.1⟩, h.2⟩
    have h3 : ¬(n ∈ (FACTOR_COLS.filter (fun c => c ∈ cols)).map
        (fun c => colIdx c cols)) := by
      intro h
      apply h1
      rcases List.mem_map.mp h with ⟨c, hcf, hcn⟩
      have hcm := List.mem_filter.mp hcf
      have hcT : c ∈ TEXT_COLS := by
        have := hcm.1
        fin_cases this <;> decide
      exact List.mem_map.mpr ⟨c,
        List.mem_filter.mpr ⟨hcT, hcm.2⟩, hcn⟩
    simp only [if_neg h1, if_neg h2, if_neg h3]

/-- C9: TextNormalizer is idempotent — applying `clean_text` twice yields
exactly the table produced by applying it once (per column the composite
transform is strip, strip-then-title for the borough, or
strip-then-sentinel-replace for a factor column, each of which is
idempotent). -/
theorem claim_C9_normalizer_idempotent (t : Table) :
    clean_text (clean_text t) = clean_text t := by
  rw [clean_text_eq t]
  rw [clean_text_eq]
  dsimp only
  rw [List.map_map]
  apply congrArg
  apply List.map_congr_left
  intro r _
  simp only [Function.comp]
  exact applyOps_idem (ctOps t.cols)
    (fun n x => compApp_ctOps_idem t.cols n x) r

end Collisions
